import Mathlib

/-!
Verification of the on-chain data encoding/decoding core of the
`bsv_llm` package (`src/bsv_llm/storage.py`, `src/bsv_llm/retrieval.py`).

Shallow embedding conventions:
* Python `bytes` values are `List Nat` with every element `< 256`.
* Python `str` values are `List Nat` of Unicode code points (Python strings
  may contain lone surrogates, which Lean's `Char` cannot, so we use raw
  code points).  `PyStr` abbreviates this.
* Python exceptions are modelled with `Option`/`Except`.
* `json.dumps` (with CPython's default arguments: `ensure_ascii=True`,
  separators `", "` / `": "`) and `json.loads` from the standard library are
  modelled concretely below over a JSON value type without floats; float
  literals are outside the embedding (no code path of this repository
  produces them).
-/

set_option maxRecDepth 100000

set_option linter.unnecessarySeqFocus false

/-- Python strings as sequences of Unicode code points. -/
abbrev PyStr := List Nat

/-- Build a `PyStr` from a Lean string literal (valid-scalar text only). -/
def ps (s : String) : PyStr := s.data.map Char.toNat

/-- `bytes.startswith` / `str.startswith` on code-point lists. -/
def pyStartswith (pre l : List Nat) : Bool :=
  match pre, l with
  | [], _ => true
  | _ :: _, [] => false
  | a :: as, b :: bs => a == b && pyStartswith as bs

/-- Python's substring test `pat in s` on code-point lists. -/
def pyContains (pat : List Nat) : List Nat → Bool
  | [] => pat.isEmpty
  | c :: t => pyStartswith pat (c :: t) || pyContains pat t

/-- `int.from_bytes(bs, "big")`. -/
def fromBytesBE (bs : List Nat) : Nat := bs.foldl (fun a b => a * 256 + b) 0

/-- `int.from_bytes(bs, "little")`. -/
def fromBytesLE : List Nat → Nat
  | [] => 0
  | b :: t => b + 256 * fromBytesLE t

/-- `n.to_bytes(2, "big")` for `n < 65536` (larger values raise `OverflowError`,
which callers model separately). -/
def toBytes2BE (n : Nat) : List Nat := [n / 256, n % 256]

/-- Lower-case hexadecimal digit, as used by CPython's `json` and `hexdigest`. -/
def hexDig (d : Nat) : Nat := if d < 10 then 0x30 + d else 0x57 + d

/-- Four-digit lower-case hex of a 16-bit value (CPython `'\\u{0:04x}'`). -/
def hex4 (u : Nat) : List Nat :=
  [hexDig (u / 4096 % 16), hexDig (u / 256 % 16), hexDig (u / 16 % 16), hexDig (u % 16)]

/-- Value of one hex digit character, upper or lower case accepted
(as by `int(s, 16)` inside CPython's `\uXXXX` handling). -/
def parseHexDig (c : Nat) : Option Nat :=
  if 0x30 ≤ c ∧ c ≤ 0x39 then some (c - 0x30)
  else if 0x61 ≤ c ∧ c ≤ 0x66 then some (c - 0x57)
  else if 0x41 ≤ c ∧ c ≤ 0x46 then some (c - 0x37)
  else none

/-- Combine four hex digit characters into a 16-bit value. -/
def parseHex4 (a b c d : Nat) : Option Nat :=
  match parseHexDig a, parseHexDig b, parseHexDig c, parseHexDig d with
  | some x, some y, some z, some w => some (x * 4096 + y * 256 + z * 16 + w)
  | _, _, _, _ => none

/-- Decimal digit characters of `n` (`repr` of a non-negative int).
Fuel-based so that it reduces in the kernel; `natRepr` supplies ample fuel. -/
def natReprAux : Nat → Nat → List Nat
  | 0, _ => []
  | fuel + 1, n => if n < 10 then [0x30 + n] else natReprAux fuel (n / 10) ++ [0x30 + n % 10]

/-- `repr` of a non-negative Python int. -/
def natRepr (n : Nat) : List Nat := natReprAux (n + 1) n

/-- `repr` of a Python int (used by `json.dumps` for int values). -/
def intRepr (n : Int) : List Nat :=
  if n < 0 then 0x2D :: natRepr (-n).toNat else natRepr n.toNat

/-- UTF-8 encoding of one code point; `none` models the `UnicodeEncodeError`
raised for surrogates and out-of-range values. -/
def utf8EncodeChar (c : Nat) : Option (List Nat) :=
  if c < 0x80 then some [c]
  else if c < 0x800 then some [0xC0 + c / 64, 0x80 + c % 64]
  else if c < 0x10000 then
    if 0xD800 ≤ c ∧ c ≤ 0xDFFF then none
    else some [0xE0 + c / 4096, 0x80 + c / 64 % 64, 0x80 + c % 64]
  else if c < 0x110000 then
    some [0xF0 + c / 262144, 0x80 + c / 4096 % 64, 0x80 + c / 64 % 64, 0x80 + c % 64]
  else none

/-- Strict UTF-8 encoding of a code-point sequence (`str.encode("utf-8")`). -/
def utf8Encode : PyStr → Option (List Nat)
  | [] => some []
  | c :: t =>
    match utf8EncodeChar c, utf8Encode t with
    | some e, some r => some (e ++ r)
    | _, _ => none

/-- Decode one UTF-8 sequence from the front of a byte list (strict mode:
overlong forms, surrogates and values above U+10FFFF are rejected, as
CPython does; `none` models `UnicodeDecodeError`). -/
def utf8DecodeStep : List Nat → Option (Nat × List Nat)
  | [] => none
  | b0 :: rest =>
    if b0 < 0x80 then some (b0, rest)
    else if 0xC2 ≤ b0 ∧ b0 ≤ 0xDF then
      match rest with
      | b1 :: rest2 =>
        if 0x80 ≤ b1 ∧ b1 ≤ 0xBF then some ((b0 - 0xC0) * 64 + (b1 - 0x80), rest2)
        else none
      | [] => none
    else if 0xE0 ≤ b0 ∧ b0 ≤ 0xEF then
      match rest with
      | b1 :: b2 :: rest2 =>
        let lo1 := if b0 = 0xE0 then 0xA0 else 0x80
        let hi1 := if b0 = 0xED then 0x9F else 0xBF
        if lo1 ≤ b1 ∧ b1 ≤ hi1 ∧ 0x80 ≤ b2 ∧ b2 ≤ 0xBF then
          some ((b0 - 0xE0) * 4096 + (b1 - 0x80) * 64 + (b2 - 0x80), rest2)
        else none
      | _ => none
    else if 0xF0 ≤ b0 ∧ b0 ≤ 0xF4 then
      match rest with
      | b1 :: b2 :: b3 :: rest2 =>
        let lo1 := if b0 = 0xF0 then 0x90 else 0x80
        let hi1 := if b0 = 0xF4 then 0x8F else 0xBF
        if lo1 ≤ b1 ∧ b1 ≤ hi1 ∧ 0x80 ≤ b2 ∧ b2 ≤ 0xBF ∧ 0x80 ≤ b3 ∧ b3 ≤ 0xBF then
          some ((b0 - 0xF0) * 262144 + (b1 - 0x80) * 4096 + (b2 - 0x80) * 64 + (b3 - 0x80),
            rest2)
        else none
      | _ => none
    else none

/-- Decoding loop; the fuel only bounds the iteration count (each step
consumes at least one byte), `utf8Decode` supplies ample fuel. -/
def utf8DecodeAux : Nat → List Nat → Option PyStr
  | _, [] => some []
  | 0, _ :: _ => none
  | fuel + 1, l =>
    match utf8DecodeStep l with
    | none => none
    | some (cp, rest) => (utf8DecodeAux fuel rest).map (fun r => cp :: r)

/-- Strict UTF-8 decoding of a byte sequence (`bytes.decode("utf-8")`). -/
def utf8Decode (l : List Nat) : Option PyStr := utf8DecodeAux (l.length + 1) l

/-- Well-formedness of a Python string for the JSON round trip: every code
point is in Unicode range, and no high surrogate is immediately followed by a
low surrogate (such adjacent pairs are merged by `json.loads`, see
`py_scanstring` in CPython's `json/decoder.py`).  `noMerge c t` is the
adjacency condition between `c` and the head of `t`. -/
def noMerge (c : Nat) : PyStr → Bool
  | [] => true
  | c2 :: _ =>
    !(decide (0xD800 ≤ c) && decide (c ≤ 0xDBFF) &&
      decide (0xDC00 ≤ c2) && decide (c2 ≤ 0xDFFF))

/-- Well-formedness of a Python string for the JSON round trip (see
`noMerge`): in-range code points, no mergeable adjacent surrogate pair. -/
def pystrOk : PyStr → Bool
  | [] => true
  | c :: t => decide (c < 0x110000) && noMerge c t && pystrOk t

/-!  JSON values (as produced/consumed by the metadata codec).  Floats are
outside the embedding; objects are association lists in insertion order,
which is what both `dict` iteration (for `dumps`) and the round trip need. -/

mutual

inductive Json where
  | null : Json
  | bool (b : Bool) : Json
  | int (n : Int) : Json
  | str (s : PyStr) : Json
  | arr (xs : JsonList) : Json
  | obj (ms : JsonObj) : Json
  deriving DecidableEq

inductive JsonList where
  | nil : JsonList
  | cons (hd : Json) (tl : JsonList) : JsonList
  deriving DecidableEq

inductive JsonObj where
  | nil : JsonObj
  | cons (k : PyStr) (v : Json) (tl : JsonObj) : JsonObj
  deriving DecidableEq

end

/-- One character of CPython's `json.encoder.py_encode_basestring_ascii`:
`"` and `\` and the short control escapes are special-cased, printable ASCII
is literal, everything else becomes `\uXXXX` (a surrogate pair for astral
code points). -/
def escapeChar (c : Nat) : List Nat :=
  if c = 0x22 then [0x5C, 0x22]
  else if c = 0x5C then [0x5C, 0x5C]
  else if c = 0x08 then [0x5C, 0x62]
  else if c = 0x09 then [0x5C, 0x74]
  else if c = 0x0A then [0x5C, 0x6E]
  else if c = 0x0C then [0x5C, 0x66]
  else if c = 0x0D then [0x5C, 0x72]
  else if 0x20 ≤ c ∧ c ≤ 0x7E then [c]
  else if c < 0x10000 then 0x5C :: 0x75 :: hex4 c
  else
    let v := c - 0x10000
    (0x5C :: 0x75 :: hex4 (0xD800 + v / 0x400)) ++ (0x5C :: 0x75 :: hex4 (0xDC00 + v % 0x400))

/-- Escaped body of a JSON string literal. -/
def escapeList : PyStr → List Nat
  | [] => []
  | c :: t => escapeChar c ++ escapeList t

/-- A serialized JSON string literal, quotes included. -/
def strDumps (s : PyStr) : List Nat := 0x22 :: escapeList s ++ [0x22]

mutual

/-- `json.dumps` with CPython's defaults (`ensure_ascii=True`, separators
`", "` and `": "`).  Output is pure ASCII, returned as code points. -/
def Json.dumps : Json → List Nat
  | .null => [0x6E, 0x75, 0x6C, 0x6C]
  | .bool true => [0x74, 0x72, 0x75, 0x65]
  | .bool false => [0x66, 0x61, 0x6C, 0x73, 0x65]
  | .int n => intRepr n
  | .str s => strDumps s
  | .arr xs => 0x5B :: JsonList.dumpsElems xs ++ [0x5D]
  | .obj ms => 0x7B :: JsonObj.dumpsMembers ms ++ [0x7D]

/-- Elements of an array, joined by `", "`. -/
def JsonList.dumpsElems : JsonList → List Nat
  | .nil => []
  | .cons h .nil => h.dumps
  | .cons h (.cons h2 t) => h.dumps ++ [0x2C, 0x20] ++ JsonList.dumpsElems (.cons h2 t)

/-- Members of an object: `"key": value`, joined by `", "`. -/
def JsonObj.dumpsMembers : JsonObj → List Nat
  | .nil => []
  | .cons k v .nil => strDumps k ++ [0x3A, 0x20] ++ v.dumps
  | .cons k v (.cons k2 v2 t) =>
    strDumps k ++ [0x3A, 0x20] ++ v.dumps ++ [0x2C, 0x20] ++
      JsonObj.dumpsMembers (.cons k2 v2 t)

end

mutual

/-- Well-formedness of a JSON value: every string (keys included) satisfies
`pystrOk`.  Ill-formed strings are exactly the ones whose `dumps`/`loads`
round trip is not the identity. -/
def jsonWF : Json → Bool
  | .null | .bool _ | .int _ => true
  | .str s => pystrOk s
  | .arr xs => jsonListWF xs
  | .obj ms => jsonObjWF ms

def jsonListWF : JsonList → Bool
  | .nil => true
  | .cons h t => jsonWF h && jsonListWF t

def jsonObjWF : JsonObj → Bool
  | .nil => true
  | .cons k v t => pystrOk k && jsonWF v && jsonObjWF t

end

/-- Continuation of `py_scanstring` after decoding a `\uXXXX` escape with
value `u` and remaining input `r2`: a high surrogate peeks for `\u` and a
low-surrogate escape to merge with (an ill-formed `\uXXXX` in that position
raises, hence `none`); anything else yields `u` itself. -/
def escU (u : Nat) (r2 : List Nat) : Option (Option Nat × List Nat) :=
  if 0xD800 ≤ u ∧ u ≤ 0xDBFF then
    match r2 with
    | a :: b :: r3 =>
      if a = 0x5C ∧ b = 0x75 then
        match r3 with
        | g1 :: g2 :: g3 :: g4 :: r4 =>
          match parseHex4 g1 g2 g3 g4 with
          | none => none
          | some u2 =>
            if 0xDC00 ≤ u2 ∧ u2 ≤ 0xDFFF then
              some (some (0x10000 + (u - 0xD800) * 0x400 + (u2 - 0xDC00)), r4)
            else some (some u, r2)
        | _ => none
      else some (some u, r2)
    | _ => some (some u, r2)
  else some (some u, r2)

/-- One step of `py_scanstring` (`strict=True`): either the terminating
quote (`(none, rest)`), or one decoded code point (`(some cp, rest)`);
`none` is a raised `JSONDecodeError` (bad escape, raw control character,
unterminated string). -/
def unescapeTok : List Nat → Option (Option Nat × List Nat)
  | [] => none
  | c :: rest =>
    if c = 0x22 then some (none, rest)
    else if c = 0x5C then
      match rest with
      | [] => none
      | e :: r =>
        if e = 0x22 then some (some 0x22, r)
        else if e = 0x5C then some (some 0x5C, r)
        else if e = 0x2F then some (some 0x2F, r)
        else if e = 0x62 then some (some 0x08, r)
        else if e = 0x74 then some (some 0x09, r)
        else if e = 0x6E then some (some 0x0A, r)
        else if e = 0x66 then some (some 0x0C, r)
        else if e = 0x72 then some (some 0x0D, r)
        else if e = 0x75 then
          match r with
          | h1 :: h2 :: h3 :: h4 :: r2 =>
            match parseHex4 h1 h2 h3 h4 with
            | none => none
            | some u => escU u r2
          | _ => none
        else none
    else if c < 0x20 then none
    else some (some c, rest)

/-- The `py_scanstring` loop: token steps until the closing quote.  The fuel
only bounds the iteration count (each token consumes at least one input
character); `scanStrTop` supplies ample fuel. -/
def scanStr : Nat → List Nat → Option (PyStr × List Nat)
  | 0, _ => none
  | fuel + 1, l =>
    match unescapeTok l with
    | none => none
    | some (none, rest) => some ([], rest)
    | some (some cp, rest) => (scanStr fuel rest).map (fun p => (cp :: p.1, p.2))

/-- `scanStr` with ample fuel. -/
def scanStrTop (l : List Nat) : Option (PyStr × List Nat) := scanStr (l.length + 1) l

/-- JSON whitespace characters. -/
def isWS (c : Nat) : Bool := c = 0x20 || c = 0x09 || c = 0x0A || c = 0x0D

/-- Skip JSON whitespace. -/
def skipWS (l : List Nat) : List Nat := l.dropWhile isWS

/-- Decimal digit character test. -/
def isDigitCh (c : Nat) : Bool := 0x30 ≤ c && c ≤ 0x39

/-- Fold decimal digit characters into a value. -/
def digitsVal (ds : List Nat) : Nat := ds.foldl (fun a c => a * 10 + (c - 0x30)) 0

/-- After the integer part of a number, CPython's regex would extend the
match with a fraction (`.` + digits) or an exponent and produce a float;
floats are outside the embedding, so such inputs scan to `none`. -/
def numTailOk : List Nat → Bool
  | [] => true
  | [c] => c != 0x65 && c != 0x45
  | c :: d :: _ => if c = 0x2E then !isDigitCh d else c != 0x65 && c != 0x45

/-- Scan an unsigned JSON integer (regex `0|[1-9]\d*`). -/
def scanUNum : List Nat → Option (Nat × List Nat)
  | [] => none
  | c :: r =>
    if c = 0x30 then (if numTailOk r then some (0, r) else none)
    else if isDigitCh c then
      let ds := (c :: r).takeWhile isDigitCh
      let rest := (c :: r).dropWhile isDigitCh
      if numTailOk rest then some (digitsVal ds, rest) else none
    else none

/-- Scan a JSON integer with optional minus sign. -/
def scanNum (l : List Nat) : Option (Int × List Nat) :=
  match l with
  | [] => none
  | c :: r =>
    if c = 0x2D then (scanUNum r).map (fun p => (-(p.1 : Int), p.2))
    else (scanUNum (c :: r)).map (fun p => ((p.1 : Int), p.2))

mutual

/-- CPython's `_json` value scanner (`scan_once`), restricted to the
float-free fragment.  The fuel argument only bounds the recursion depth;
`loads` supplies ample fuel. -/
def scanValue : Nat → List Nat → Option (Json × List Nat)
  | 0, _ => none
  | fuel + 1, l =>
    match l with
    | [] => none
    | c :: r =>
      if c = 0x7B then
        let r1 := skipWS r
        match r1 with
        | d :: r2 =>
          if d = 0x7D then some (.obj .nil, r2)
          else (scanObjMembers fuel (d :: r2)).map (fun p => (Json.obj p.1, p.2))
        | [] => none
      else if c = 0x5B then
        let r1 := skipWS r
        match r1 with
        | d :: r2 =>
          if d = 0x5D then some (.arr .nil, r2)
          else (scanArrElems fuel (d :: r2)).map (fun p => (Json.arr p.1, p.2))
        | [] => none
      else if c = 0x22 then (scanStrTop r).map (fun p => (Json.str p.1, p.2))
      else if c = 0x6E then
        match r with
        | u :: l1 :: l2 :: r2 => if u = 0x75 ∧ l1 = 0x6C ∧ l2 = 0x6C then some (.null, r2) else none
        | _ => none
      else if c = 0x74 then
        match r with
        | a :: b :: d :: r2 => if a = 0x72 ∧ b = 0x75 ∧ d = 0x65 then some (.bool true, r2) else none
        | _ => none
      else if c = 0x66 then
        match r with
        | a :: b :: d :: e :: r2 =>
          if a = 0x61 ∧ b = 0x6C ∧ d = 0x73 ∧ e = 0x65 then some (.bool false, r2) else none
        | _ => none
      else (scanNum l).map (fun p => (Json.int p.1, p.2))

/-- Array elements after `[` and leading whitespace (non-empty case). -/
def scanArrElems : Nat → List Nat → Option (JsonList × List Nat)
  | 0, _ => none
  | fuel + 1, l =>
    match scanValue fuel l with
    | none => none
    | some (v, r) =>
      match skipWS r with
      | d :: r2 =>
        if d = 0x2C then
          (scanArrElems fuel (skipWS r2)).map (fun p => (JsonList.cons v p.1, p.2))
        else if d = 0x5D then some (JsonList.cons v .nil, r2)
        else none
      | [] => none

/-- Object members starting at the quote of a key (non-empty case). -/
def scanObjMembers : Nat → List Nat → Option (JsonObj × List Nat)
  | 0, _ => none
  | fuel + 1, l =>
    match l with
    | q :: r =>
      if q = 0x22 then
        match scanStrTop r with
        | none => none
        | some (k, r1) =>
          match skipWS r1 with
          | d :: r2 =>
            if d = 0x3A then
              match scanValue fuel (skipWS r2) with
              | none => none
              | some (v, r3) =>
                match skipWS r3 with
                | e :: r4 =>
                  if e = 0x2C then
                    (scanObjMembers fuel (skipWS r4)).map
                      (fun p => (JsonObj.cons k v p.1, p.2))
                  else if e = 0x7D then some (JsonObj.cons k v .nil, r4)
                  else none
                | [] => none
            else none
          | [] => none
      else none
    | [] => none

end

/-- `json.loads`: skip leading whitespace, scan one value, require only
whitespace to remain.  `none` models `json.JSONDecodeError` (and the float
inputs outside the embedding). -/
def loads (s : PyStr) : Option Json :=
  let t := skipWS s
  match scanValue (t.length + 1) t with
  | some (j, rest) => if skipWS rest = [] then some j else none
  | none => none

/-!  Metadata model (`storage.py`, `DataType` and `DataMetadata`). -/

/-- `DataType` enum. -/
inductive DataType where
  | raw | json | csv | text | model_weights | dataset
  deriving DecidableEq

/-- `DataType.value` strings. -/
def DataType.value : DataType → PyStr
  | .raw => ps "raw"
  | .json => ps "json"
  | .csv => ps "csv"
  | .text => ps "text"
  | .model_weights => ps "model_weights"
  | .dataset => ps "dataset"

/-- `DataType(s)` lookup by value; `none` models the `ValueError` raised on an
unknown value. -/
def DataType.ofValue (s : PyStr) : Option DataType :=
  if s = ps "raw" then some .raw
  else if s = ps "json" then some .json
  else if s = ps "csv" then some .csv
  else if s = ps "text" then some .text
  else if s = ps "model_weights" then some .model_weights
  else if s = ps "dataset" then some .dataset
  else none

/-- `DataMetadata` dataclass.  Fields carry the types declared by the
dataclass annotations; `custom` holds JSON-serializable values (the only
kind `json.dumps` accepts without error). -/
structure DataMetadata where
  name : PyStr
  data_type : DataType
  description : PyStr := []
  version : PyStr := ps "1.0"
  created_at : PyStr := []
  size_bytes : Int := 0
  compressed : Bool := false
  chunk_index : Option Int := none
  total_chunks : Option Int := none
  data_hash : PyStr := []
  custom : JsonObj := .nil
  deriving DecidableEq

/-- The keys of `DataMetadata.to_dict`, in insertion order. -/
def key_name : PyStr := ps "name"

def key_data_type : PyStr := ps "data_type"

def key_description : PyStr := ps "description"

def key_version : PyStr := ps "version"

def key_created_at : PyStr := ps "created_at"

def key_size_bytes : PyStr := ps "size_bytes"

def key_compressed : PyStr := ps "compressed"

def key_chunk_index : PyStr := ps "chunk_index"

def key_total_chunks : PyStr := ps "total_chunks"

def key_data_hash : PyStr := ps "data_hash"

def key_custom : PyStr := ps "custom"

/-- `None`-or-int fields serialize as JSON null or number. -/
def optIntJson : Option Int → Json
  | none => .null
  | some n => .int n

/-- `DataMetadata.to_dict`. -/
def DataMetadata.to_dict (m : DataMetadata) : Json :=
  .obj
    (.cons key_name (.str m.name)
      (.cons key_data_type (.str m.data_type.value)
        (.cons key_description (.str m.description)
          (.cons key_version (.str m.version)
            (.cons key_created_at (.str m.created_at)
              (.cons key_size_bytes (.int m.size_bytes)
                (.cons key_compressed (.bool m.compressed)
                  (.cons key_chunk_index (optIntJson m.chunk_index)
                    (.cons key_total_chunks (optIntJson m.total_chunks)
                      (.cons key_data_hash (.str m.data_hash)
                        (.cons key_custom (.obj m.custom) .nil)))))))))))

/-- Lookup in a parsed JSON object with `dict` semantics: a repeated key
keeps its last value (`json.loads` builds a `dict`). -/
def JsonObj.getLast (k : PyStr) : JsonObj → Option Json
  | .nil => none
  | .cons k2 v t =>
    match JsonObj.getLast k t with
    | some r => some r
    | none => if k2 = k then some v else none

/-- `data.get(key, default)` for a string-typed field.  A present value of a
different JSON type would put a non-`str` value into a `str`-annotated
dataclass field; such untyped records are outside the embedding (`none`). -/
def pyGetStr (o : Option Json) (dflt : PyStr) : Option PyStr :=
  match o with
  | none => some dflt
  | some (.str s) => some s
  | some _ => none

/-- `data.get(key, default)` for an int-typed field (same typing caveat). -/
def pyGetInt (o : Option Json) (dflt : Int) : Option Int :=
  match o with
  | none => some dflt
  | some (.int n) => some n
  | some _ => none

/-- `data.get(key, default)` for a bool-typed field (same typing caveat). -/
def pyGetBool (o : Option Json) (dflt : Bool) : Option Bool :=
  match o with
  | none => some dflt
  | some (.bool b) => some b
  | some _ => none

/-- `data.get(key)` for an `int | None` field: missing and JSON null both
give `None` (same typing caveat). -/
def pyGetOptInt (o : Option Json) : Option (Option Int) :=
  match o with
  | none => some none
  | some .null => some none
  | some (.int n) => some (some n)
  | some _ => none

/-- `data.get(key, {})` for the `custom` dict (same typing caveat). -/
def pyGetObj (o : Option Json) : Option JsonObj :=
  match o with
  | none => some JsonObj.nil
  | some (.obj ms) => some ms
  | some _ => none

/-- `DataMetadata.from_dict`.  `now` models `datetime.utcnow().isoformat()`,
the impure default used when `created_at` is absent.  `none` models the
exceptions escaping `from_dict` (missing required key, unknown `data_type`)
as well as records outside the typed embedding. -/
def DataMetadata.from_dict (now : PyStr) (j : Json) : Option DataMetadata :=
  match j with
  | .obj d =>
    match JsonObj.getLast key_name d, JsonObj.getLast key_data_type d with
    | some (.str name), some (.str dts) =>
      match DataType.ofValue dts with
      | none => none
      | some dt =>
        match pyGetStr (JsonObj.getLast key_description d) [],
              pyGetStr (JsonObj.getLast key_version d) (ps "1.0"),
              pyGetStr (JsonObj.getLast key_created_at d) now,
              pyGetInt (JsonObj.getLast key_size_bytes d) 0,
              pyGetBool (JsonObj.getLast key_compressed d) false with
        | some description, some version, some created_at, some size_bytes,
          some compressed =>
          match pyGetOptInt (JsonObj.getLast key_chunk_index d),
                pyGetOptInt (JsonObj.getLast key_total_chunks d),
                pyGetStr (JsonObj.getLast key_data_hash d) [],
                pyGetObj (JsonObj.getLast key_custom d) with
          | some chunk_index, some total_chunks, some data_hash, some custom =>
            some
              { name := name, data_type := dt, description := description,
                version := version, created_at := created_at,
                size_bytes := size_bytes, compressed := compressed,
                chunk_index := chunk_index, total_chunks := total_chunks,
                data_hash := data_hash, custom := custom }
          | _, _, _, _ => none
        | _, _, _, _, _ => none
    | _, _ => none
  | _ => none

/-- Well-formedness of a metadata record for the round trip: all its strings
satisfy `pystrOk` (see `pystrOk` for the failure mode this excludes). -/
def metadataWF (m : DataMetadata) : Bool :=
  pystrOk m.name && pystrOk m.description && pystrOk m.version &&
    pystrOk m.created_at && pystrOk m.data_hash && jsonObjWF m.custom

/-!  Payload codec (`storage.py` lines 124-217). -/

/-- `DatasetStorage.PROTOCOL_PREFIX` (`b"BSVLLM"`). -/
def protocolMarker : List Nat := [0x42, 0x53, 0x56, 0x4C, 0x4C, 0x4D]

/-- `DatasetStorage.MAX_CHUNK_SIZE`. -/
def MAX_CHUNK_SIZE : Nat := 90000

/-- `metadata.to_json().encode("utf-8")`.  The encode step cannot actually
fail because `json.dumps(ensure_ascii=True)` emits pure ASCII (see
`utf8Encode_dumps`), but the `Option` keeps the model total. -/
def metaBytes (m : DataMetadata) : Option (List Nat) :=
  utf8Encode (Json.dumps m.to_dict)

/-- `DatasetStorage._create_storage_payload` (also aliased `_create_payload`):
`PROTOCOL_PREFIX ‖ metadata_length(2 bytes, big-endian) ‖ metadata_json ‖ data`.
`none` models the `OverflowError` from `len(metadata_bytes).to_bytes(2, "big")`
when the serialized metadata does not fit in two bytes. -/
def _create_storage_payload (data : List Nat) (m : DataMetadata) : Option (List Nat) :=
  match metaBytes m with
  | none => none
  | some mb =>
    if mb.length < 65536 then some (protocolMarker ++ toBytes2BE mb.length ++ mb ++ data)
    else none

/-- `DatasetStorage._parse_payload` (the identical copy in `retrieval.py` is
the one retrieval calls).  Errors model the `ValueError`s raised for a bad
prefix, undecodable metadata bytes, unparsable JSON, or a metadata dict the
dataclass cannot be built from.  `now` is passed through to `from_dict`. -/
def _parse_payload (now : PyStr) (payload : List Nat) :
    Except String (DataMetadata × List Nat) :=
  if pyStartswith protocolMarker payload then
    let metadata_length := fromBytesBE ((payload.drop 6).take 2)
    let metadata_bytes := (payload.drop 8).take metadata_length
    let data := payload.drop (8 + metadata_length)
    match utf8Decode metadata_bytes with
    | none => .error "metadata bytes are not valid UTF-8"
    | some s =>
      match loads s with
      | none => .error "metadata is not valid JSON"
      | some j =>
        match DataMetadata.from_dict now j with
        | none => .error "metadata dict does not form a DataMetadata"
        | some m => .ok (m, data)
  else .error "Invalid payload: missing protocol prefix"

/-!  Chunk manager and compression (`storage.py` lines 141-169, 219-232,
313-380).  `zlib.compress(·, level=9)` is external stdlib code and is taken
as a parameter wherever it occurs. -/

/-- Loop body of `DatasetStorage._chunk_data`:
`for i in range(0, len(data), maxSize): chunks.append(data[i : i + maxSize])`.
The fuel only bounds the iteration count (each iteration advances `i` by
`maxSize ≥ 1`), `_chunk_data` supplies ample fuel. -/
def chunkDataAux (maxSize : Nat) (data : List Nat) : Nat → Nat → List (List Nat)
  | 0, _ => []
  | fuel + 1, i =>
    if i < data.length then ((data.drop i).take maxSize) :: chunkDataAux maxSize data fuel (i + maxSize)
    else []

/-- `DatasetStorage._chunk_data`, with the class attribute `MAX_CHUNK_SIZE`
as an explicit parameter (the source reads it off `self`). -/
def _chunk_data (maxSize : Nat) (data : List Nat) : List (List Nat) :=
  chunkDataAux maxSize data data.length 0

/-- `DatasetStorage._prepare_data` restricted to `bytes` input (`str` and
`dict` inputs are first converted to bytes by the source; the claims under
verification quantify over byte strings).  `compressFn` stands for
`zlib.compress(·, level=9)`.  The float comparison
`len(compressed) < len(data_bytes) * 0.9` is modelled as the exact rational
comparison `10 * len(compressed) < 9 * len(data_bytes)`: for every length
representable in memory the rounding error of `len * 0.9` (about
`len * 2.22e-16`) is smaller than the distance from `0.9 * len` to the
nearest other integer, and when `9 * len / 10` is an integer the rounded
double equals it exactly, so the two comparisons agree. -/
def _prepare_data (compressFn : List Nat → List Nat) (data_bytes : List Nat)
    (compress : Bool) : List Nat × Bool :=
  if compress ∧ data_bytes.length > 1000 then
    let compressed := compressFn data_bytes
    if 10 * compressed.length < 9 * data_bytes.length then (compressed, true)
    else (data_bytes, false)
  else (data_bytes, false)

/-!  Integrity hashing: `hashlib.sha256(·).hexdigest()`, modelled bit-exactly
(FIPS 180-4) over byte lists, with 32-bit words as `Nat` reduced mod `2^32`. -/

/-- Right rotation of a 32-bit word. -/
def rotr32 (n x : Nat) : Nat := (x / 2 ^ n + x % 2 ^ n * 2 ^ (32 - n)) % 2 ^ 32

/-- Bitwise XOR (words fit in 32 bits throughout). -/
def bxor (a b : Nat) : Nat := Nat.xor a b

/-- SHA-256 small sigma 0. -/
def ssig0 (x : Nat) : Nat := bxor (bxor (rotr32 7 x) (rotr32 18 x)) (x / 2 ^ 3)

/-- SHA-256 small sigma 1. -/
def ssig1 (x : Nat) : Nat := bxor (bxor (rotr32 17 x) (rotr32 19 x)) (x / 2 ^ 10)

/-- SHA-256 big sigma 0. -/
def bsig0 (x : Nat) : Nat := bxor (bxor (rotr32 2 x) (rotr32 13 x)) (rotr32 22 x)

/-- SHA-256 big sigma 1. -/
def bsig1 (x : Nat) : Nat := bxor (bxor (rotr32 6 x) (rotr32 11 x)) (rotr32 25 x)

/-- SHA-256 Ch. -/
def sha_ch (x y z : Nat) : Nat := bxor (Nat.land x y) (Nat.land (2 ^ 32 - 1 - x) z)

/-- SHA-256 Maj. -/
def sha_maj (x y z : Nat) : Nat :=
  bxor (bxor (Nat.land x y) (Nat.land x z)) (Nat.land y z)

/-- SHA-256 round constants. -/
def shaK : List Nat :=
  [0x428a2f98, 0x71374491, 0xb5c0fbcf, 0xe9b5dba5, 0x3956c25b, 0x59f111f1,
   0x923f82a4, 0xab1c5ed5] ++
  [0xd807aa98, 0x12835b01, 0x243185be, 0x550c7dc3,
   0x72be5d74, 0x80deb1fe, 0x9bdc06a7, 0xc19bf174] ++
  [0xe49b69c1, 0xefbe4786,
   0x0fc19dc6, 0x240ca1cc, 0x2de92c6f, 0x4a7484aa, 0x5cb0a9dc, 0x76f988da] ++
  [0x983e5152, 0xa831c66d, 0xb00327c8, 0xbf597fc7, 0xc6e00bf3, 0xd5a79147,
   0x06ca6351, 0x14292967] ++
  [0x27b70a85, 0x2e1b2138, 0x4d2c6dfc, 0x53380d13,
   0x650a7354, 0x766a0abb, 0x81c2c92e, 0x92722c85] ++
  [0xa2bfe8a1, 0xa81a664b,
   0xc24b8b70, 0xc76c51a3, 0xd192e819, 0xd6990624, 0xf40e3585, 0x106aa070] ++
  [0x19a4c116, 0x1e376c08, 0x2748774c, 0x34b0bcb5, 0x391c0cb3, 0x4ed8aa4a,
   0x5b9cca4f, 0x682e6ff3] ++
  [0x748f82ee, 0x78a5636f, 0x84c87814, 0x8cc70208,
   0x90befffa, 0xa4506ceb, 0xbef9a3f7, 0xc67178f2]

/-- Split a padded message into 32-bit big-endian words. -/
def bytesToWords : List Nat → List Nat
  | b0 :: b1 :: b2 :: b3 :: rest =>
    (b0 * 16777216 + b1 * 65536 + b2 * 256 + b3) :: bytesToWords rest
  | _ => []

/-- Extend 16 message words to 64 (one step appends one word). -/
def shaExtend (ws : List Nat) : Nat → List Nat
  | 0 => ws
  | k + 1 =>
    let i := ws.length
    shaExtend
      (ws ++ [(ws.getD (i - 16) 0 + ssig0 (ws.getD (i - 15) 0) + ws.getD (i - 7) 0 +
               ssig1 (ws.getD (i - 2) 0)) % 2 ^ 32]) k

/-- One round of the SHA-256 compression function. -/
def shaRound (st : List Nat) (kw : Nat × Nat) : List Nat :=
  match st with
  | [a, b, c, d, e, f, g, h] =>
    let t1 := (h + bsig1 e + sha_ch e f g + kw.1 + kw.2) % 2 ^ 32
    let t2 := (bsig0 a + sha_maj a b c) % 2 ^ 32
    [(t1 + t2) % 2 ^ 32, a, b, c, (d + t1) % 2 ^ 32, e, f, g]
  | _ => st

/-- Process one 64-byte block. -/
def shaBlock (h : List Nat) (block : List Nat) : List Nat :=
  let ws := shaExtend (bytesToWords block) 48
  let st := (shaK.zip ws |>.map (fun p => (p.1, p.2))).foldl shaRound h
  (h.zip st).map (fun p => (p.1 + p.2) % 2 ^ 32)

/-- Process consecutive 64-byte blocks (fuel = number of blocks, supplied
amply by `sha256Hex`; a padded message has length a positive multiple of 64). -/
def shaBlocksAux (fuel : Nat) (h : List Nat) (msg : List Nat) : List Nat :=
  match fuel with
  | 0 => h
  | fuel + 1 =>
    if msg.length < 64 then h
    else shaBlocksAux fuel (shaBlock h (msg.take 64)) (msg.drop 64)

/-- Process consecutive 64-byte blocks. -/
def shaBlocks (h : List Nat) (msg : List Nat) : List Nat :=
  shaBlocksAux (msg.length / 64 + 1) h msg

/-- SHA-256 padding: `0x80`, zeros to 56 mod 64, 8-byte big-endian bit length. -/
def shaPad (msg : List Nat) : List Nat :=
  let l := msg.length
  let zeros := (119 - l % 64) % 64
  let bits := 8 * l
  msg ++ 0x80 :: List.replicate zeros 0 ++
    [bits / 2 ^ 56 % 256, bits / 2 ^ 48 % 256, bits / 2 ^ 40 % 256, bits / 2 ^ 32 % 256,
     bits / 2 ^ 24 % 256, bits / 2 ^ 16 % 256, bits / 2 ^ 8 % 256, bits % 256]

/-- Eight lower-case hex digits of a 32-bit word. -/
def word8hex (w : Nat) : List Nat :=
  [hexDig (w / 2 ^ 28 % 16), hexDig (w / 2 ^ 24 % 16), hexDig (w / 2 ^ 20 % 16),
   hexDig (w / 2 ^ 16 % 16), hexDig (w / 2 ^ 12 % 16), hexDig (w / 2 ^ 8 % 16),
   hexDig (w / 2 ^ 4 % 16), hexDig (w % 16)]

/-- `hashlib.sha256(data).hexdigest()` as a code-point string. -/
def sha256Hex (msg : List Nat) : PyStr :=
  let h := shaBlocks
    [0x6a09e667, 0xbb67ae85, 0x3c6ef372, 0xa54ff53a,
     0x510e527f, 0x9b05688c, 0x1f83d9ab, 0x5be0cd19] (shaPad msg)
  (h.map word8hex).flatten

/-- Per-chunk metadata built in the loop of `DatasetStorage._store_chunked`
(lines 348-359); `now` models the `created_at` default factory. -/
def chunkMetadata (base : DataMetadata) (data_hash now : PyStr) (total i : Nat)
    (chunk : List Nat) : DataMetadata :=
  { name := base.name, data_type := base.data_type,
    description := ps "Chunk " ++ natRepr (i + 1) ++ ps "/" ++ natRepr total,
    version := ps "1.0", created_at := now,
    size_bytes := (chunk.length : Int), compressed := base.compressed,
    chunk_index := some (i : Int), total_chunks := some (total : Int),
    data_hash := data_hash, custom := base.custom }

/-- The `(chunk metadata, chunk bytes)` pairs produced by
`DatasetStorage._store_chunked` before payload framing. -/
def _store_chunked_set (base : DataMetadata) (data_hash now : PyStr)
    (data : List Nat) : List (DataMetadata × List Nat) :=
  let chunks := _chunk_data MAX_CHUNK_SIZE data
  let total := chunks.length
  chunks.enum.map (fun p => (chunkMetadata base data_hash now total p.1 p.2, p.2))

/-- The base metadata built by `DatasetStorage.store` (lines 259-284) for a
`bytes` input with `compress=True`: `size_bytes` and `data_hash` come from
the original data, `compressed` from `_prepare_data`. -/
def storeBase (compressFn : List Nat → List Nat) (d : List Nat) (dt : DataType)
    (name desc : PyStr) (custom : JsonObj) (now : PyStr) : DataMetadata :=
  { name := name, data_type := dt, description := desc, created_at := now,
    size_bytes := (d.length : Int), compressed := (_prepare_data compressFn d true).2,
    data_hash := sha256Hex d, custom := custom }

/-- The chunk set `DatasetStorage.store` hands to `_store_chunked` for a
`bytes` input with `compress=True` (chunked branch, line 305): the prepared
(possibly compressed) data is chunked, while `data_hash` is the SHA-256 of
the original input. -/
def storeChunked (compressFn : List Nat → List Nat) (d : List Nat) (dt : DataType)
    (name desc : PyStr) (custom : JsonObj) (now : PyStr) :
    List (DataMetadata × List Nat) :=
  _store_chunked_set (storeBase compressFn d dt name desc custom now) (sha256Hex d) now
    (_prepare_data compressFn d true).1

/-!  Script extractor (`retrieval.py` lines 98-142). -/

/-- Outcome of the per-output push parsing inside
`DatasetRetrieval._extract_op_return_data` (lines 119-140): a recovered
payload, a skip (no recognized payload, `continue`), or an uncaught
`IndexError` (PUSHDATA1 with no length byte). -/
inductive ScriptExtract where
  | found (data : List Nat)
  | skip
  | err
  deriving DecidableEq

/-- The push parsing applied to one output's raw script bytes.  Python
slicing clamps to the available bytes, reproduced by `List.take`/`List.drop`. -/
def extractFromScript (raw : List Nat) : ScriptExtract :=
  if 2 < raw.length ∧ raw.getD 0 0 = 0x00 ∧ raw.getD 1 0 = 0x6A then
    let op := raw.getD 2 0
    if op < 0x4C then .found ((raw.drop 3).take op)
    else if op = 0x4C then
      if 3 < raw.length then .found ((raw.drop 4).take (raw.getD 3 0)) else .err
    else if op = 0x4D then .found ((raw.drop 5).take (fromBytesLE ((raw.drop 3).take 2)))
    else if op = 0x4E then .found ((raw.drop 7).take (fromBytesLE ((raw.drop 3).take 4)))
    else .skip
  else .skip

/-- One transaction output as consumed by the extractor: the `asm` string of
`scriptPubKey` and its script bytes (the source decodes the latter from the
`hex` field with `bytes.fromhex`; hex decoding itself is not under any claim
and the bytes are taken directly). -/
structure Vout where
  asm : PyStr
  script : List Nat

/-- Decoded transaction data: its ordered outputs. -/
abbrev TxData := List Vout

/-- The `asm` pre-filter of `_extract_op_return_data` (line 113). -/
def asmMatches (a : PyStr) : Bool :=
  pyContains (ps "OP_FALSE OP_RETURN") a || pyStartswith (ps "0 OP_RETURN") a

/-- `DatasetRetrieval._extract_op_return_data`: first matching output wins;
empty scripts (falsy `hex_data`) and unrecognized scripts fall through to
the next output; `.error` models the `IndexError` escaping the function. -/
def _extract_op_return_data : TxData → Except String (Option (List Nat))
  | [] => .ok none
  | v :: rest =>
    if asmMatches v.asm ∧ v.script ≠ [] then
      match extractFromScript v.script with
      | .found d => .ok (some d)
      | .skip => _extract_op_return_data rest
      | .err => .error "IndexError"
    else _extract_op_return_data rest

/-!  Retrieval (`retrieval.py` lines 19-247). -/

/-- `RetrievalResult` dataclass. -/
structure RetrievalResult where
  success : Bool
  data : Option (List Nat) := none
  metadata : Option DataMetadata := none
  error : Option String := none
  verified : Bool := false
  deriving DecidableEq

/-- Python truthiness of an optional string (for `if verify and expected:`). -/
def optStrTruthy : Option PyStr → Bool
  | none => false
  | some s => !s.isEmpty

/-- f-string interpolation of an `Optional[str]` (`None` prints as `"None"`). -/
def pyFmtOptStr : Option String → String
  | none => "None"
  | some s => s

/-- Decimal string of a natural number, for error-message interpolation. -/
def natStr (n : Nat) : String := String.mk ((natRepr n).map Char.ofNat)

/-- `DatasetRetrieval.get`.  `tx` is the outcome of the awaited
`client.get_raw_transaction` call (exception or transaction), `decompressFn`
models `zlib.decompress` (`.error` = `zlib.error`), `now` feeds the
`created_at` default of metadata parsing. -/
def get (now : PyStr) (tx : Except String TxData)
    (decompressFn : List Nat → Except String (List Nat)) (verify : Bool) :
    RetrievalResult :=
  match tx with
  | .error e => { success := false, error := some e }
  | .ok txd =>
    match _extract_op_return_data txd with
    | .error e => { success := false, error := some e }
    | .ok pl =>
      -- `if not payload:` is true both for `None` and for empty bytes
      match pl with
      | none => { success := false, error := some "No OP_RETURN data found in transaction" }
      | some payload =>
        if payload = [] then
          { success := false, error := some "No OP_RETURN data found in transaction" }
        else
          match _parse_payload now payload with
          | .error e => { success := false, error := some ("Failed to parse payload: " ++ e) }
          | .ok (md, data0) =>
            match (if md.compressed then decompressFn data0 else .ok data0) with
            | .error e => { success := false, error := some ("Decompression failed: " ++ e) }
            | .ok data =>
              if verify ∧ optStrTruthy (some md.data_hash) then
                if sha256Hex data = md.data_hash then
                  { success := true, data := some data, metadata := some md, verified := true }
                else
                  { success := false, data := some data, metadata := some md,
                    error := some "Data hash verification failed", verified := false }
              else
                { success := true, data := some data, metadata := some md, verified := false }

/-- Loop of `DatasetRetrieval.get_chunked` (lines 214-227) followed by the
reassembly and verification tail (lines 229-247).  `i` is the 0-based loop
index, `chunks`/`md`/`expected` the accumulated loop state.  On success
`get` always carries data, so `r.data.getD []` is `r.data`'s value. -/
def get_chunked_go (now : PyStr) (fetch : String → Except String TxData)
    (decompressFn : List Nat → Except String (List Nat)) (verify : Bool) :
    List String → Nat → List (List Nat) → Option DataMetadata → Option PyStr →
    RetrievalResult
  | [], _, chunks, md, expected =>
    let reassembled := chunks.flatten
    if verify ∧ optStrTruthy expected then
      if sha256Hex reassembled = expected.getD [] then
        { success := true, data := some reassembled, metadata := md, verified := true }
      else
        { success := false, data := some reassembled, metadata := md,
          error := some "Reassembled data hash verification failed", verified := false }
    else { success := true, data := some reassembled, metadata := md, verified := false }
  | txid :: rest, i, chunks, md, expected =>
    let r := get now (fetch txid) decompressFn false
    if r.success then
      let md2 := if md.isNone then r.metadata else md
      let expected2 := if md.isNone then r.metadata.map (·.data_hash) else expected
      get_chunked_go now fetch decompressFn verify rest (i + 1)
        (chunks ++ [r.data.getD []]) md2 expected2
    else
      { success := false,
        error := some ("Failed to retrieve chunk " ++ natStr (i + 1) ++ ": " ++
                       pyFmtOptStr r.error) }

/-- `DatasetRetrieval.get_chunked`. -/
def get_chunked (now : PyStr) (fetch : String → Except String TxData)
    (decompressFn : List Nat → Except String (List Nat))
    (chunk_txids : List String) (verify : Bool) : RetrievalResult :=
  get_chunked_go now fetch decompressFn verify chunk_txids 0 [] none none

/-!  Concrete data used by claim witnesses and counterexamples. -/

/-- A small well-formed metadata record. -/
def mDemo : DataMetadata :=
  { name := ps "seth_message", data_type := .text,
    created_at := ps "2024-01-01T00:00:00", size_bytes := 12,
    data_hash := ps "abc123",
    custom := .cons (ps "key") (.str (ps "value")) .nil }

/-- A metadata record whose name is a high surrogate immediately followed by
a low surrogate (two separate code units, as Python `str` allows). -/
def msur : DataMetadata :=
  { name := [0xD83D, 0xDE00], data_type := .raw, created_at := ps "t" }

/-- `msur` after one encode/decode round trip: `json.loads` merged the
surrogate pair in `name` into the single code point U+1F600. -/
def msurMerged : DataMetadata :=
  { name := [0x1F600], data_type := .raw, created_at := ps "t" }

/-- A metadata record carrying a data hash that cannot match any SHA-256
digest (wrong length), used to drive verification failure. -/
def mBad : DataMetadata :=
  { name := ps "x", data_type := .raw, created_at := ps "t", data_hash := ps "00" }

/-- The framed payload of `mBad` with data `b"hi"`. -/
def payloadBad : List Nat := (_create_storage_payload (ps "hi") mBad).getD []

/-- An output script pushing `payloadBad` via PUSHDATA1. -/
def scriptBad : List Nat := 0x00 :: 0x6A :: 0x4C :: payloadBad.length :: payloadBad

/-- A transaction with one data-carrying output holding `payloadBad`. -/
def txBad : TxData := [{ asm := ps "OP_FALSE OP_RETURN 4c", script := scriptBad }]

/-- A transport returning `txBad` for txid "a" and failing otherwise. -/
def fetchDemo (txid : String) : Except String TxData :=
  if txid = "a" then .ok txBad else .error "boom"

/-- A metadata record whose name alone serializes past the 16-bit metadata
length field (65600 copies of `a`). -/
def mBig : DataMetadata :=
  { name := List.replicate 65600 0x61, data_type := .raw, created_at := ps "t" }

/-!  Helper lemmas. -/

theorem pyStartswith_append (pre rest : List Nat) :
    pyStartswith pre (pre ++ rest) = true := by
  induction pre with
  | nil => rfl
  | cons a as ih => simp [pyStartswith, ih]

theorem pystrOk_cons {c : Nat} {t : PyStr} :
    pystrOk (c :: t) = true ↔ c < 0x110000 ∧ noMerge c t = true ∧ pystrOk t = true := by
  simp [pystrOk, Bool.and_assoc]

theorem pystrOk_tail {c : Nat} {t : PyStr} (h : pystrOk (c :: t) = true) :
    pystrOk t = true := (pystrOk_cons.mp h).2.2

theorem pystrOk_head_lt {c : Nat} {t : PyStr} (h : pystrOk (c :: t) = true) :
    c < 0x110000 := (pystrOk_cons.mp h).1

theorem pystrOk_adj {c c2 : Nat} {t : PyStr} (h : pystrOk (c :: c2 :: t) = true)
    (hc : 0xD800 ≤ c ∧ c ≤ 0xDBFF) : ¬(0xDC00 ≤ c2 ∧ c2 ≤ 0xDFFF) := by
  have h2 := (pystrOk_cons.mp h).2.1
  simp [noMerge] at h2
  intro hc2
  omega

theorem parseHexDig_hexDig : ∀ x, x < 16 → parseHexDig (hexDig x) = some x := by
  decide

theorem parseHex4_hex4 {u : Nat} (h : u < 0x10000) :
    match hex4 u with
    | [a, b, c, d] => parseHex4 a b c d = some u
    | _ => False := by
  have h1 : u / 4096 % 16 < 16 := Nat.mod_lt _ (by omega)
  have h2 : u / 256 % 16 < 16 := Nat.mod_lt _ (by omega)
  have h3 : u / 16 % 16 < 16 := Nat.mod_lt _ (by omega)
  have h4 : u % 16 < 16 := Nat.mod_lt _ (by omega)
  simp only [hex4, parseHex4, parseHexDig_hexDig _ h1, parseHexDig_hexDig _ h2,
    parseHexDig_hexDig _ h3, parseHexDig_hexDig _ h4]
  congr 1
  omega

theorem escU_not_hi {u : Nat} (r2 : List Nat) (h : ¬(0xD800 ≤ u ∧ u ≤ 0xDBFF)) :
    escU u r2 = some (some u, r2) := by
  simp [escU, h]

theorem escU_no_u {u : Nat} {r2 : List Nat} (h : ∀ r3, r2 ≠ 0x5C :: 0x75 :: r3) :
    escU u r2 = some (some u, r2) := by
  match r2 with
  | [] => simp [escU]
  | [a] => simp [escU]
  | a :: b :: r3 =>
    have hab : ¬(a = 0x5C ∧ b = 0x75) := by
      intro hab
      exact h r3 (by rw [hab.1, hab.2])
    simp [escU, hab]

theorem escU_next_u {u x g1 g2 g3 g4 : Nat} {r4 : List Nat}
    (hg : parseHex4 g1 g2 g3 g4 = some x) (hx : ¬(0xDC00 ≤ x ∧ x ≤ 0xDFFF)) :
    escU u (0x5C :: 0x75 :: g1 :: g2 :: g3 :: g4 :: r4) =
      some (some u, 0x5C :: 0x75 :: g1 :: g2 :: g3 :: g4 :: r4) := by
  by_cases hu : 0xD800 ≤ u ∧ u ≤ 0xDBFF
  · simp [escU, hu, hg, hx]
  · exact escU_not_hi _ hu

theorem escU_merge {u x g1 g2 g3 g4 : Nat} {r4 : List Nat}
    (hg : parseHex4 g1 g2 g3 g4 = some x) (hx : 0xDC00 ≤ x ∧ x ≤ 0xDFFF)
    (hu : 0xD800 ≤ u ∧ u ≤ 0xDBFF) :
    escU u (0x5C :: 0x75 :: g1 :: g2 :: g3 :: g4 :: r4) =
      some (some (0x10000 + (u - 0xD800) * 0x400 + (x - 0xDC00)), r4) := by
  simp [escU, hu, hg, hx]

theorem unescapeTok_u {h1 h2 h3 h4 u : Nat} {r2 : List Nat}
    (hh : parseHex4 h1 h2 h3 h4 = some u) :
    unescapeTok (0x5C :: 0x75 :: h1 :: h2 :: h3 :: h4 :: r2) = escU u r2 := by
  simp only [unescapeTok]
  norm_num
  rw [hh]

theorem unescapeTok_lit {c : Nat} (r : List Nat) (h1 : 0x20 ≤ c) (h3 : c ≠ 0x22)
    (h4 : c ≠ 0x5C) : unescapeTok (c :: r) = some (some c, r) := by
  simp only [unescapeTok]
  rw [if_neg h3, if_neg h4, if_neg (by omega)]

theorem parseHex4_hexDig {u : Nat} (h : u < 0x10000) :
    parseHex4 (hexDig (u / 4096 % 16)) (hexDig (u / 256 % 16)) (hexDig (u / 16 % 16))
      (hexDig (u % 16)) = some u := by
  have h1 : u / 4096 % 16 < 16 := Nat.mod_lt _ (by omega)
  have h2 : u / 256 % 16 < 16 := Nat.mod_lt _ (by omega)
  have h3 : u / 16 % 16 < 16 := Nat.mod_lt _ (by omega)
  have h4 : u % 16 < 16 := Nat.mod_lt _ (by omega)
  simp only [parseHex4, parseHexDig_hexDig _ h1, parseHexDig_hexDig _ h2,
    parseHexDig_hexDig _ h3, parseHexDig_hexDig _ h4]
  congr 1
  omega

theorem escU_escape_follow (u c2 : Nat) (L2 : List Nat)
    (hc2 : c2 < 0x110000) (hlo2 : ¬(0xDC00 ≤ c2 ∧ c2 ≤ 0xDFFF)) :
    escU u (escapeChar c2 ++ L2) = some (some u, escapeChar c2 ++ L2) := by
  by_cases h22 : c2 = 0x22
  · subst h22
    apply escU_no_u
    intro r3 hr
    simp [escapeChar] at hr
  by_cases h5C : c2 = 0x5C
  · subst h5C
    apply escU_no_u
    intro r3 hr
    simp [escapeChar] at hr
  by_cases h08 : c2 = 0x08
  · subst h08
    apply escU_no_u
    intro r3 hr
    simp [escapeChar] at hr
  by_cases h09 : c2 = 0x09
  · subst h09
    apply escU_no_u
    intro r3 hr
    simp [escapeChar] at hr
  by_cases h0A : c2 = 0x0A
  · subst h0A
    apply escU_no_u
    intro r3 hr
    simp [escapeChar] at hr
  by_cases h0C : c2 = 0x0C
  · subst h0C
    apply escU_no_u
    intro r3 hr
    simp [escapeChar] at hr
  by_cases h0D : c2 = 0x0D
  · subst h0D
    apply escU_no_u
    intro r3 hr
    simp [escapeChar] at hr
  by_cases hlit : 0x20 ≤ c2 ∧ c2 ≤ 0x7E
  · have he : escapeChar c2 = [c2] := by
      simp [escapeChar, h22, h5C, h08, h09, h0A, h0C, h0D, hlit]
    rw [he]
    apply escU_no_u
    intro r3 hr
    simp at hr
    exact h5C hr.1
  by_cases hbmp : c2 < 0x10000
  · have he : escapeChar c2 = 0x5C :: 0x75 :: hex4 c2 := by
      simp [escapeChar, h22, h5C, h08, h09, h0A, h0C, h0D, hlit, hbmp]
    rw [he]
    simp only [hex4, List.cons_append, List.nil_append]
    exact escU_next_u (parseHex4_hexDig hbmp) hlo2
  · have he : escapeChar c2 =
        (0x5C :: 0x75 :: hex4 (0xD800 + (c2 - 0x10000) / 0x400)) ++
          (0x5C :: 0x75 :: hex4 (0xDC00 + (c2 - 0x10000) % 0x400)) := by
      simp [escapeChar, h22, h5C, h08, h09, h0A, h0C, h0D, hlit, hbmp]
    rw [he]
    simp only [hex4, List.cons_append, List.nil_append]
    apply escU_next_u (parseHex4_hexDig (by omega))
    omega

theorem unescapeTok_escape (c : Nat) (t : PyStr) (q : List Nat)
    (hc : c < 0x110000) (hadj : noMerge c t = true) (ht : pystrOk t = true) :
    unescapeTok (escapeChar c ++ (escapeList t ++ 0x22 :: q)) =
      some (some c, escapeList t ++ 0x22 :: q) := by
  by_cases h22 : c = 0x22
  · subst h22; rfl
  by_cases h5C : c = 0x5C
  · subst h5C; rfl
  by_cases h08 : c = 0x08
  · subst h08; rfl
  by_cases h09 : c = 0x09
  · subst h09; rfl
  by_cases h0A : c = 0x0A
  · subst h0A; rfl
  by_cases h0C : c = 0x0C
  · subst h0C; rfl
  by_cases h0D : c = 0x0D
  · subst h0D; rfl
  by_cases hlit : 0x20 ≤ c ∧ c ≤ 0x7E
  · have he : escapeChar c = [c] := by
      simp [escapeChar, h22, h5C, h08, h09, h0A, h0C, h0D, hlit]
    rw [he]
    exact unescapeTok_lit _ hlit.1 h22 h5C
  by_cases hbmp : c < 0x10000
  · have he : escapeChar c = 0x5C :: 0x75 :: hex4 c := by
      simp [escapeChar, h22, h5C, h08, h09, h0A, h0C, h0D, hlit, hbmp]
    rw [he]
    simp only [hex4, List.cons_append, List.nil_append]
    rw [unescapeTok_u (parseHex4_hexDig hbmp)]
    by_cases hhi : 0xD800 ≤ c ∧ c ≤ 0xDBFF
    · cases t with
      | nil =>
        apply escU_no_u
        intro r3 hr
        simp [escapeList] at hr
      | cons c2 t2 =>
        have hc2 : ¬(0xDC00 ≤ c2 ∧ c2 ≤ 0xDFFF) := by
          simp [noMerge] at hadj
          intro hx
          omega
        have hc2lt : c2 < 0x110000 := pystrOk_head_lt ht
        have hl : escapeList (c2 :: t2) ++ 0x22 :: q =
            escapeChar c2 ++ (escapeList t2 ++ 0x22 :: q) := by
          simp [escapeList]
        rw [hl]
        exact escU_escape_follow c c2 _ hc2lt hc2
    · exact escU_not_hi _ hhi
  · have he : escapeChar c =
        (0x5C :: 0x75 :: hex4 (0xD800 + (c - 0x10000) / 0x400)) ++
          (0x5C :: 0x75 :: hex4 (0xDC00 + (c - 0x10000) % 0x400)) := by
      simp [escapeChar, h22, h5C, h08, h09, h0A, h0C, h0D, hlit, hbmp]
    rw [he]
    simp only [hex4, List.cons_append, List.nil_append]
    rw [unescapeTok_u (parseHex4_hexDig (by omega))]
    rw [escU_merge (parseHex4_hexDig (by omega)) (by omega) (by omega)]
    have harith :
        0x10000 + (0xD800 + (c - 0x10000) / 0x400 - 0xD800) * 0x400 +
          (0xDC00 + (c - 0x10000) % 0x400 - 0xDC00) = c := by omega
    rw [harith]

theorem scanStr_escape (s : PyStr) : ∀ fuel q, pystrOk s = true → s.length < fuel →
    scanStr fuel (escapeList s ++ 0x22 :: q) = some (s, q) := by
  induction s with
  | nil =>
    intro fuel q _ hf
    match fuel, hf with
    | f + 1, _ => rfl
  | cons c t ih =>
    intro fuel q hs hf
    match fuel, hf with
    | f + 1, hf =>
      have hparts := pystrOk_cons.mp hs
      have hstep := unescapeTok_escape c t q hparts.1 hparts.2.1 hparts.2.2
      have hl : escapeList (c :: t) ++ 0x22 :: q =
          escapeChar c ++ (escapeList t ++ 0x22 :: q) := by
        simp [escapeList]
      rw [show scanStr (f + 1) (escapeList (c :: t) ++ 0x22 :: q) =
            match unescapeTok (escapeList (c :: t) ++ 0x22 :: q) with
            | none => none
            | some (none, rest) => some ([], rest)
            | some (some cp, rest) => (scanStr f rest).map (fun p => (cp :: p.1, p.2))
          from rfl]
      rw [hl, hstep]
      simp only []
      rw [ih f q hparts.2.2 (by simpa using Nat.lt_of_succ_lt_succ hf)]
      rfl

theorem escapeChar_length_pos (c : Nat) : 0 < (escapeChar c).length := by
  unfold escapeChar
  split_ifs <;> simp [hex4]

theorem escapeList_length_ge (s : PyStr) : s.length ≤ (escapeList s).length := by
  induction s with
  | nil => simp [escapeList]
  | cons c t ih =>
    simp only [escapeList, List.length_append, List.length_cons]
    have := escapeChar_length_pos c
    omega

theorem scanStrTop_escape (s : PyStr) (q : List Nat) (hs : pystrOk s = true) :
    scanStrTop (escapeList s ++ 0x22 :: q) = some (s, q) := by
  apply scanStr_escape s _ q hs
  have := escapeList_length_ge s
  simp only [List.length_append, List.length_cons]
  omega

/-- Boundary condition after a serialized number: the next character (if
any) cannot extend the number match. -/
def numBoundary : List Nat → Bool
  | [] => true
  | c :: _ => !isDigitCh c && c != 0x2E && c != 0x65 && c != 0x45

theorem numTailOk_of_boundary {l : List Nat} (h : numBoundary l = true) :
    numTailOk l = true := by
  match l with
  | [] => rfl
  | [c] =>
    simp [numBoundary] at h
    simp [numTailOk]
    omega
  | c :: d :: t =>
    simp [numBoundary] at h
    simp [numTailOk, h.1.1.2, h.1.2, h.2]

theorem takeWhile_digits_append {ds rest : List Nat}
    (hds : ∀ c ∈ ds, isDigitCh c = true) (hrest : numBoundary rest = true) :
    (ds ++ rest).takeWhile isDigitCh = ds ∧ (ds ++ rest).dropWhile isDigitCh = rest := by
  induction ds with
  | nil =>
    simp only [List.nil_append]
    match rest with
    | [] => simp
    | c :: t =>
      simp [numBoundary] at hrest
      simp [List.takeWhile, List.dropWhile, hrest.1]
  | cons d ds ih =>
    have hd := hds d (by simp)
    have ih2 := ih (fun c hc => hds c (by simp [hc]))
    simp [List.takeWhile, List.dropWhile, hd, ih2.1, ih2.2]

theorem natReprAux_digits {fuel n : Nat} (h : n < fuel) :
    ∀ c ∈ natReprAux fuel n, isDigitCh c = true := by
  induction fuel generalizing n with
  | zero => omega
  | succ f ih =>
    intro c hc
    by_cases h10 : n < 10
    · simp [natReprAux, h10] at hc
      simp [hc, isDigitCh]
      omega
    · simp only [natReprAux, if_neg h10, List.mem_append] at hc
      rcases hc with hc | hc
      · exact ih (by omega) c hc
      · simp at hc
        simp [hc, isDigitCh]
        omega

theorem natReprAux_head {fuel n : Nat} (h : n < fuel) :
    ∃ c cs, natReprAux fuel n = c :: cs ∧ (1 ≤ n → 0x31 ≤ c ∧ c ≤ 0x39) ∧
      (n = 0 → c = 0x30 ∧ cs = []) := by
  induction fuel generalizing n with
  | zero => omega
  | succ f ih =>
    by_cases h10 : n < 10
    · refine ⟨0x30 + n, [], by simp [natReprAux, h10], ?_, ?_⟩
      · intro hn
        omega
      · intro hn
        simp [hn]
    · obtain ⟨c, cs, hc, hcb, -⟩ := @ih (n / 10) (by omega)
      refine ⟨c, cs ++ [0x30 + n % 10], ?_, ?_, ?_⟩
      · simp [natReprAux, h10, hc]
      · intro _
        exact hcb (by omega)
      · intro hn
        omega

theorem digitsVal_natReprAux {fuel n : Nat} (h : n < fuel) :
    digitsVal (natReprAux fuel n) = n := by
  suffices hgen : ∀ fuel n a, n < fuel →
      List.foldl (fun a c => a * 10 + (c - 0x30)) a (natReprAux fuel n) =
        a * 10 ^ (natReprAux fuel n).length + n by
    have := hgen fuel n 0 h
    simpa [digitsVal] using this
  intro fuel
  induction fuel with
  | zero => omega
  | succ f ih =>
    intro n a hn
    by_cases h10 : n < 10
    · simp [natReprAux, h10]
    · simp only [natReprAux, if_neg h10, List.foldl_append, List.length_append,
        List.foldl_cons, List.foldl_nil, List.length_cons, List.length_nil]
      rw [ih (n / 10) a (by omega)]
      have hpow : a * 10 ^ ((natReprAux f (n / 10)).length + (0 + 1)) =
          a * 10 ^ (natReprAux f (n / 10)).length * 10 := by ring
      rw [hpow]
      omega

theorem scanUNum_natRepr (n : Nat) (rest : List Nat) (hb : numBoundary rest = true) :
    scanUNum (natRepr n ++ rest) = some (n, rest) := by
  obtain ⟨c, cs, hc, hpos, hzero⟩ := natReprAux_head (show n < n + 1 by omega)
  have hrepr : natRepr n = c :: cs := hc
  by_cases hn : n = 0
  · subst hn
    rw [hrepr, (hzero rfl).1, (hzero rfl).2]
    simp [scanUNum, numTailOk_of_boundary hb]
  · have hcb := hpos (by omega)
    have hc30 : ¬(c = 0x30) := by omega
    have hdig : isDigitCh c = true := by
      simp only [isDigitCh, Bool.and_eq_true, decide_eq_true_eq]
      omega
    have htw : (natRepr n ++ rest).takeWhile isDigitCh = natRepr n ∧
        (natRepr n ++ rest).dropWhile isDigitCh = rest :=
      takeWhile_digits_append (natReprAux_digits (by omega)) hb
    rw [hrepr] at htw
    have hval : digitsVal (natRepr n) = n := digitsVal_natReprAux (by omega)
    rw [hrepr] at hval
    rw [hrepr]
    simp only [List.cons_append, scanUNum, if_neg hc30, hdig, if_pos]
    simp only [← List.cons_append, htw.1, htw.2, hval]
    rw [if_pos (numTailOk_of_boundary hb)]

theorem scanNum_intRepr (n : Int) (rest : List Nat) (hb : numBoundary rest = true) :
    scanNum (intRepr n ++ rest) = some (n, rest) := by
  by_cases hneg : n < 0
  · have hrepr : intRepr n = 0x2D :: natRepr (-n).toNat := by simp [intRepr, hneg]
    rw [hrepr]
    simp only [List.cons_append, scanNum, if_pos rfl]
    rw [scanUNum_natRepr _ _ hb]
    have harith : -(((-n).toNat : Nat) : Int) = n := by omega
    simp only [Option.map_some', harith, if_true]
  · have hrepr : intRepr n = natRepr n.toNat := by simp [intRepr, hneg]
    rw [hrepr]
    obtain ⟨c, cs, hc, hpos, hzero⟩ :=
      natReprAux_head (show n.toNat < n.toNat + 1 by omega)
    have hcd : ¬(c = 0x2D) := by
      by_cases h0 : n.toNat = 0
      · rw [(hzero h0).1]
        omega
      · have := hpos (by omega)
        omega
    rw [show natRepr n.toNat = c :: cs from hc]
    simp only [List.cons_append, scanNum, if_neg hcd]
    rw [show (c :: (cs ++ rest)) = natRepr n.toNat ++ rest by
      simp [natRepr, hc]]
    rw [scanUNum_natRepr _ _ hb]
    have harith : ((n.toNat : Nat) : Int) = n := by omega
    simp only [Option.map_some', harith]

theorem scanValue_null (f : Nat) (r : List Nat) :
    scanValue (f + 1) (0x6E :: 0x75 :: 0x6C :: 0x6C :: r) = some (.null, r) := rfl

theorem scanValue_true (f : Nat) (r : List Nat) :
    scanValue (f + 1) (0x74 :: 0x72 :: 0x75 :: 0x65 :: r) = some (.bool true, r) := rfl

theorem scanValue_false (f : Nat) (r : List Nat) :
    scanValue (f + 1) (0x66 :: 0x61 :: 0x6C :: 0x73 :: 0x65 :: r) =
      some (.bool false, r) := rfl

theorem scanValue_str (f : Nat) (r : List Nat) :
    scanValue (f + 1) (0x22 :: r) =
      (scanStrTop r).map (fun p => (Json.str p.1, p.2)) := rfl

theorem scanValue_obj (f : Nat) (r : List Nat) :
    scanValue (f + 1) (0x7B :: r) =
      (match skipWS r with
       | d :: r2 =>
         if d = 0x7D then some (.obj .nil, r2)
         else (scanObjMembers f (d :: r2)).map (fun p => (Json.obj p.1, p.2))
       | [] => none) := rfl

theorem scanValue_arr (f : Nat) (r : List Nat) :
    scanValue (f + 1) (0x5B :: r) =
      (match skipWS r with
       | d :: r2 =>
         if d = 0x5D then some (.arr .nil, r2)
         else (scanArrElems f (d :: r2)).map (fun p => (Json.arr p.1, p.2))
       | [] => none) := rfl

theorem scanValue_num (f c : Nat) (r : List Nat) (h : c = 0x2D ∨ isDigitCh c = true) :
    scanValue (f + 1) (c :: r) = (scanNum (c :: r)).map (fun p => (Json.int p.1, p.2)) := by
  rcases h with h | h
  · subst h; rfl
  · simp only [isDigitCh, Bool.and_eq_true, decide_eq_true_eq] at h
    obtain ⟨h1, h2⟩ := h
    interval_cases c <;> rfl

theorem scanArrElems_step (f : Nat) (l : List Nat) :
    scanArrElems (f + 1) l =
      (match scanValue f l with
       | none => none
       | some (v, r) =>
         match skipWS r with
         | d :: r2 =>
           if d = 0x2C then
             (scanArrElems f (skipWS r2)).map (fun p => (JsonList.cons v p.1, p.2))
           else if d = 0x5D then some (JsonList.cons v .nil, r2)
           else none
         | [] => none) := rfl

theorem scanObjMembers_step (f : Nat) (r : List Nat) :
    scanObjMembers (f + 1) (0x22 :: r) =
      (match scanStrTop r with
       | none => none
       | some (k, r1) =>
         match skipWS r1 with
         | d :: r2 =>
           if d = 0x3A then
             match scanValue f (skipWS r2) with
             | none => none
             | some (v, r3) =>
               match skipWS r3 with
               | e :: r4 =>
                 if e = 0x2C then
                   (scanObjMembers f (skipWS r4)).map
                     (fun p => (JsonObj.cons k v p.1, p.2))
                 else if e = 0x7D then some (JsonObj.cons k v .nil, r4)
                 else none
               | [] => none
           else none
         | [] => none) := rfl

mutual

/-- Fuel needed by `scanValue` on `dumps` output (see `scanValue_dumps`). -/
def jfuel : Json → Nat
  | .null | .bool _ | .int _ | .str _ => 1
  | .arr xs => 1 + lfuel xs
  | .obj ms => 1 + ofuel ms

/-- Fuel needed by `scanArrElems` on dumped elements. -/
def lfuel : JsonList → Nat
  | .nil => 1
  | .cons h t => 1 + max (jfuel h) (lfuel t)

/-- Fuel needed by `scanObjMembers` on dumped members. -/
def ofuel : JsonObj → Nat
  | .nil => 1
  | .cons _ v t => 1 + max (jfuel v) (ofuel t)

end

theorem skipWS_cons_false {c : Nat} (l : List Nat) (h : isWS c = false) :
    skipWS (c :: l) = c :: l := by
  simp [skipWS, List.dropWhile, h]

theorem intRepr_head (n : Int) :
    ∃ c cs, intRepr n = c :: cs ∧ (c = 0x2D ∨ (0x30 ≤ c ∧ c ≤ 0x39)) := by
  by_cases hneg : n < 0
  · exact ⟨0x2D, natRepr (-n).toNat, by simp [intRepr, hneg], Or.inl rfl⟩
  · obtain ⟨c, cs, hc, hpos, hzero⟩ :=
      natReprAux_head (show n.toNat < n.toNat + 1 by omega)
    refine ⟨c, cs, by simp [intRepr, hneg, natRepr, hc], Or.inr ?_⟩
    by_cases h0 : n.toNat = 0
    · rw [(hzero h0).1]; omega
    · have := hpos (by omega); omega

theorem dumps_head_props (j : Json) :
    ∃ c cs, Json.dumps j = c :: cs ∧ isWS c = false ∧ c ≠ 0x5D ∧ c ≠ 0x7D ∧ c ≠ 0x2C := by
  match j with
  | .null => exact ⟨0x6E, _, rfl, rfl, by omega, by omega, by omega⟩
  | .bool true => exact ⟨0x74, _, rfl, rfl, by omega, by omega, by omega⟩
  | .bool false => exact ⟨0x66, _, rfl, rfl, by omega, by omega, by omega⟩
  | .int n =>
    obtain ⟨c, cs, hc, hprop⟩ := intRepr_head n
    refine ⟨c, cs, by simp [Json.dumps, hc], ?_, by omega, by omega, by omega⟩
    simp [isWS]
    omega
  | .str s => exact ⟨0x22, _, rfl, rfl, by omega, by omega, by omega⟩
  | .arr xs => exact ⟨0x5B, _, rfl, rfl, by omega, by omega, by omega⟩
  | .obj ms => exact ⟨0x7B, _, rfl, rfl, by omega, by omega, by omega⟩

theorem skipWS_dumps (j : Json) (L : List Nat) :
    skipWS (Json.dumps j ++ L) = Json.dumps j ++ L := by
  obtain ⟨c, cs, hc, hws, -, -, -⟩ := dumps_head_props j
  rw [hc, List.cons_append, skipWS_cons_false _ hws]

theorem jfuel_pos (j : Json) : 1 ≤ jfuel j := by
  cases j <;> simp [jfuel]

theorem lfuel_pos (xs : JsonList) : 1 ≤ lfuel xs := by
  cases xs <;> simp [lfuel]

theorem ofuel_pos (ms : JsonObj) : 1 ≤ ofuel ms := by
  cases ms <;> simp [ofuel]

theorem elems_head (h : Json) (t : JsonList) (X : List Nat) :
    ∃ c cs, JsonList.dumpsElems (.cons h t) ++ X = c :: cs ∧ isWS c = false ∧
      c ≠ 0x5D ∧ c ≠ 0x7D ∧ c ≠ 0x2C := by
  obtain ⟨c, cs, hc, hws, hne1, hne2, hne3⟩ := dumps_head_props h
  match t with
  | .nil => exact ⟨c, cs ++ X, by simp [JsonList.dumpsElems, hc], hws, hne1, hne2, hne3⟩
  | .cons h2 t2 =>
    refine ⟨c, cs ++ ([0x2C, 0x20] ++ JsonList.dumpsElems (.cons h2 t2) ++ X), ?_,
      hws, hne1, hne2, hne3⟩
    simp [JsonList.dumpsElems, hc]

theorem members_head (k : PyStr) (v : Json) (t : JsonObj) (X : List Nat) :
    ∃ cs, JsonObj.dumpsMembers (.cons k v t) ++ X = 0x22 :: cs := by
  match t with
  | .nil =>
    exact ⟨escapeList k ++ 0x22 :: 0x3A :: 0x20 :: (Json.dumps v ++ X),
      by simp [JsonObj.dumpsMembers, strDumps]⟩
  | .cons k2 v2 t2 =>
    exact ⟨escapeList k ++ 0x22 :: 0x3A :: 0x20 ::
        (Json.dumps v ++ 0x2C :: 0x20 :: (JsonObj.dumpsMembers (.cons k2 v2 t2) ++ X)),
      by simp [JsonObj.dumpsMembers, strDumps]⟩

theorem skipWS_elems (h : Json) (t : JsonList) (X : List Nat) :
    skipWS (JsonList.dumpsElems (.cons h t) ++ X) = JsonList.dumpsElems (.cons h t) ++ X := by
  obtain ⟨c, cs, heq, hws, -, -, -⟩ := elems_head h t X
  rw [heq, skipWS_cons_false _ hws]

theorem skipWS_members (k : PyStr) (v : Json) (t : JsonObj) (X : List Nat) :
    skipWS (JsonObj.dumpsMembers (.cons k v t) ++ X) =
      JsonObj.dumpsMembers (.cons k v t) ++ X := by
  obtain ⟨cs, heq⟩ := members_head k v t X
  rw [heq, skipWS_cons_false _ (by rfl)]

theorem members_shape (k : PyStr) (v : Json) (t : JsonObj) (X : List Nat) :
    JsonObj.dumpsMembers (.cons k v t) ++ X =
      0x22 :: (escapeList k ++ 0x22 ::
        (0x3A :: 0x20 :: (Json.dumps v ++
          (match t with
           | .nil => X
           | .cons k2 v2 t2 =>
             0x2C :: 0x20 :: (JsonObj.dumpsMembers (.cons k2 v2 t2) ++ X))))) := by
  match t with
  | .nil => simp [JsonObj.dumpsMembers, strDumps]
  | .cons k2 v2 t2 => simp [JsonObj.dumpsMembers, strDumps]

mutual

theorem scanValue_dumps (j : Json) (fuel : Nat) (rest : List Nat)
    (hwf : jsonWF j = true) (hb : numBoundary rest = true) (hf : jfuel j ≤ fuel) :
    scanValue fuel (Json.dumps j ++ rest) = some (j, rest) := by
  obtain ⟨f, rfl⟩ : ∃ f, fuel = f + 1 := ⟨fuel - 1, by have := jfuel_pos j; omega⟩
  cases j with
  | null => exact scanValue_null f rest
  | bool b =>
    cases b with
    | true => exact scanValue_true f rest
    | false => exact scanValue_false f rest
  | int n =>
    obtain ⟨c, cs, hic, hprop⟩ := intRepr_head n
    have hd : c = 0x2D ∨ isDigitCh c = true := by
      rcases hprop with h | h
      · exact Or.inl h
      · refine Or.inr ?_
        simp [isDigitCh]
        omega
    rw [show Json.dumps (.int n) ++ rest = c :: (cs ++ rest) by simp [Json.dumps, hic]]
    rw [scanValue_num f c _ hd]
    rw [show c :: (cs ++ rest) = intRepr n ++ rest by simp [hic]]
    rw [scanNum_intRepr n rest hb]
    rfl
  | str s =>
    have hps : pystrOk s = true := by simpa [jsonWF] using hwf
    rw [show Json.dumps (.str s) ++ rest = 0x22 :: (escapeList s ++ 0x22 :: rest) by
      simp [Json.dumps, strDumps]]
    rw [scanValue_str f]
    rw [scanStrTop_escape s rest hps]
    rfl
  | arr xs =>
    rw [show Json.dumps (.arr xs) ++ rest =
        0x5B :: (JsonList.dumpsElems xs ++ 0x5D :: rest) by
      simp [Json.dumps]]
    rw [scanValue_arr f]
    cases xs with
    | nil =>
      rw [show JsonList.dumpsElems .nil ++ 0x5D :: rest = 0x5D :: rest from rfl]
      rw [skipWS_cons_false _ (by rfl)]
      simp
    | cons h t =>
      obtain ⟨c, cs, heq, hws, h5D, -, -⟩ := elems_head h t (0x5D :: rest)
      rw [heq, skipWS_cons_false _ hws]
      simp only []
      rw [if_neg h5D, ← heq]
      rw [scanArrElems_dumps h t f rest (by simpa [jsonWF] using hwf)
        (by simp [jfuel] at hf; omega)]
      rfl
  | obj ms =>
    rw [show Json.dumps (.obj ms) ++ rest =
        0x7B :: (JsonObj.dumpsMembers ms ++ 0x7D :: rest) by
      simp [Json.dumps]]
    rw [scanValue_obj f]
    cases ms with
    | nil =>
      rw [show JsonObj.dumpsMembers .nil ++ 0x7D :: rest = 0x7D :: rest from rfl]
      rw [skipWS_cons_false _ (by rfl)]
      simp
    | cons k v t =>
      obtain ⟨cs, heq⟩ := members_head k v t (0x7D :: rest)
      rw [heq, skipWS_cons_false _ (by rfl)]
      simp only []
      rw [if_neg (show ¬((0x22 : Nat) = 0x7D) by omega), ← heq]
      rw [scanObjMembers_dumps k v t f rest (by simpa [jsonWF] using hwf)
        (by simp [jfuel] at hf; omega)]
      rfl
termination_by sizeOf j

theorem scanArrElems_dumps (h : Json) (t : JsonList) (fuel : Nat) (rest : List Nat)
    (hwf : jsonListWF (.cons h t) = true) (hf : lfuel (.cons h t) ≤ fuel) :
    scanArrElems fuel (JsonList.dumpsElems (.cons h t) ++ 0x5D :: rest) =
      some (.cons h t, rest) := by
  obtain ⟨f, rfl⟩ : ∃ f, fuel = f + 1 :=
    ⟨fuel - 1, by have := lfuel_pos (.cons h t); omega⟩
  have hwfh : jsonWF h = true := by
    simp [jsonListWF] at hwf
    exact hwf.1
  rw [scanArrElems_step]
  cases t with
  | nil =>
    rw [show JsonList.dumpsElems (.cons h .nil) ++ 0x5D :: rest =
        Json.dumps h ++ 0x5D :: rest by simp [JsonList.dumpsElems]]
    rw [scanValue_dumps h f (0x5D :: rest) hwfh (by rfl)
      (by simp [lfuel] at hf; omega)]
    simp only []
    rw [skipWS_cons_false _ (by rfl)]
    norm_num
  | cons h2 t2 =>
    rw [show JsonList.dumpsElems (.cons h (.cons h2 t2)) ++ 0x5D :: rest =
        Json.dumps h ++ (0x2C :: 0x20 :: (JsonList.dumpsElems (.cons h2 t2) ++ 0x5D :: rest)) by
      simp [JsonList.dumpsElems]]
    rw [scanValue_dumps h f _ hwfh (by rfl) (by simp [lfuel] at hf; omega)]
    simp only []
    rw [skipWS_cons_false _ (by rfl)]
    simp only [if_pos (show (0x2C : Nat) = 0x2C from rfl)]
    rw [show skipWS (0x20 :: (JsonList.dumpsElems (.cons h2 t2) ++ 0x5D :: rest)) =
        skipWS (JsonList.dumpsElems (.cons h2 t2) ++ 0x5D :: rest) from rfl]
    rw [skipWS_elems h2 t2 (0x5D :: rest)]
    rw [scanArrElems_dumps h2 t2 f rest (by simp [jsonListWF] at hwf ⊢; exact hwf.2)
      (by simp [lfuel] at hf ⊢; omega)]
    rfl
termination_by sizeOf h + sizeOf t

theorem scanObjMembers_dumps (k : PyStr) (v : Json) (t : JsonObj) (fuel : Nat)
    (rest : List Nat) (hwf : jsonObjWF (.cons k v t) = true)
    (hf : ofuel (.cons k v t) ≤ fuel) :
    scanObjMembers fuel (JsonObj.dumpsMembers (.cons k v t) ++ 0x7D :: rest) =
      some (.cons k v t, rest) := by
  obtain ⟨f, rfl⟩ : ∃ f, fuel = f + 1 :=
    ⟨fuel - 1, by have := ofuel_pos (.cons k v t); omega⟩
  have hwfparts : pystrOk k = true ∧ jsonWF v = true ∧ jsonObjWF t = true := by
    simpa [jsonObjWF, Bool.and_assoc] using hwf
  rw [members_shape k v t (0x7D :: rest)]
  rw [scanObjMembers_step]
  rw [scanStrTop_escape k _ hwfparts.1]
  simp only []
  rw [skipWS_cons_false _ (by rfl)]
  simp only [if_pos (show (0x3A : Nat) = 0x3A from rfl)]
  cases t with
  | nil =>
    rw [show skipWS (0x20 :: (Json.dumps v ++ 0x7D :: rest)) =
        skipWS (Json.dumps v ++ 0x7D :: rest) from rfl]
    rw [skipWS_dumps v (0x7D :: rest)]
    rw [scanValue_dumps v f (0x7D :: rest) hwfparts.2.1 (by rfl)
      (by simp [ofuel] at hf; omega)]
    simp only []
    rw [skipWS_cons_false _ (by rfl)]
    norm_num
  | cons k2 v2 t2 =>
    rw [show skipWS (0x20 :: (Json.dumps v ++
        0x2C :: 0x20 :: (JsonObj.dumpsMembers (.cons k2 v2 t2) ++ 0x7D :: rest))) =
        skipWS (Json.dumps v ++
          0x2C :: 0x20 :: (JsonObj.dumpsMembers (.cons k2 v2 t2) ++ 0x7D :: rest)) from rfl]
    rw [skipWS_dumps v _]
    rw [scanValue_dumps v f _ hwfparts.2.1 (by rfl) (by simp [ofuel] at hf; omega)]
    simp only []
    rw [skipWS_cons_false _ (by rfl)]
    simp only [if_pos (show (0x2C : Nat) = 0x2C from rfl)]
    rw [show skipWS (0x20 :: (JsonObj.dumpsMembers (.cons k2 v2 t2) ++ 0x7D :: rest)) =
        skipWS (JsonObj.dumpsMembers (.cons k2 v2 t2) ++ 0x7D :: rest) from rfl]
    rw [skipWS_members k2 v2 t2 (0x7D :: rest)]
    rw [scanObjMembers_dumps k2 v2 t2 f rest
      (by simp [jsonObjWF] at hwfparts ⊢; exact hwfparts.2.2)
      (by simp [ofuel] at hf ⊢; omega)]
    rfl
termination_by sizeOf v + sizeOf t

end

theorem dumps_length_pos (j : Json) : 1 ≤ (Json.dumps j).length := by
  obtain ⟨c, cs, hc, -⟩ := dumps_head_props j
  simp [hc]

mutual

theorem jfuel_le_dumps (j : Json) : jfuel j ≤ (Json.dumps j).length := by
  cases j with
  | null => simp [jfuel, Json.dumps]
  | bool b => cases b <;> simp [jfuel, Json.dumps]
  | int n =>
    have := dumps_length_pos (.int n)
    simp [jfuel]
    omega
  | str s => simp [jfuel, Json.dumps, strDumps]
  | arr xs =>
    have h1 := lfuel_le_elems xs
    simp only [jfuel, Json.dumps, List.length_append, List.length_cons]
    omega
  | obj ms =>
    have h1 := ofuel_le_members ms
    simp only [jfuel, Json.dumps, List.length_append, List.length_cons]
    omega

theorem lfuel_le_elems (xs : JsonList) : lfuel xs ≤ (JsonList.dumpsElems xs).length + 1 := by
  cases xs with
  | nil => simp [lfuel, JsonList.dumpsElems]
  | cons h t =>
    have h1 := jfuel_le_dumps h
    have h2 := dumps_length_pos h
    cases t with
    | nil =>
      simp only [lfuel, JsonList.dumpsElems, lfuel]
      omega
    | cons h2 t2 =>
      have h3 := lfuel_le_elems (.cons h2 t2)
      simp only [lfuel, JsonList.dumpsElems, List.length_append, List.length_cons] at h3 ⊢
      omega

theorem ofuel_le_members (ms : JsonObj) : ofuel ms ≤ (JsonObj.dumpsMembers ms).length + 1 := by
  cases ms with
  | nil => simp [ofuel, JsonObj.dumpsMembers]
  | cons k v t =>
    have h1 := jfuel_le_dumps v
    have h2 := dumps_length_pos v
    cases t with
    | nil =>
      simp only [ofuel, JsonObj.dumpsMembers, strDumps, List.length_append,
        List.length_cons, ofuel]
      omega
    | cons k2 v2 t2 =>
      have h3 := ofuel_le_members (.cons k2 v2 t2)
      simp only [ofuel, JsonObj.dumpsMembers, strDumps, List.length_append,
        List.length_cons] at h3 ⊢
      omega

end

theorem skipWS_dumps_plain (j : Json) : skipWS (Json.dumps j) = Json.dumps j := by
  obtain ⟨c, cs, hc, hws, -, -, -⟩ := dumps_head_props j
  rw [hc, skipWS_cons_false _ hws]

/-- `json.loads` inverts `json.dumps` on well-formed values. -/
theorem loads_dumps (j : Json) (hwf : jsonWF j = true) :
    loads (Json.dumps j) = some j := by
  unfold loads
  rw [skipWS_dumps_plain j]
  have hscan : scanValue ((Json.dumps j).length + 1) (Json.dumps j ++ []) = some (j, []) :=
    scanValue_dumps j _ [] hwf rfl (by have := jfuel_le_dumps j; omega)
  rw [List.append_nil] at hscan
  simp only [hscan]
  rfl

theorem from_dict_to_dict (now : PyStr) (m : DataMetadata) :
    DataMetadata.from_dict now m.to_dict = some m := by
  obtain ⟨name, dt, desc, ver, ca, sb, comp, ci, tc, dh, cu⟩ := m
  cases dt <;> cases ci <;> cases tc <;> rfl

theorem hexDig_ascii (d : Nat) (h : d < 16) : hexDig d < 0x80 := by
  unfold hexDig
  split_ifs
  · omega
  · omega

theorem hex4_ascii (u : Nat) : ∀ x ∈ hex4 u, x < 0x80 := by
  intro x hx
  simp [hex4] at hx
  rcases hx with h | h | h | h <;>
    (rw [h]; exact hexDig_ascii _ (Nat.mod_lt _ (by omega)))

theorem escapeChar_ascii (c : Nat) (hc : c < 0x110000) : ∀ x ∈ escapeChar c, x < 0x80 := by
  intro x hx
  unfold escapeChar at hx
  split_ifs at hx with h1 h2 h3 h4 h5 h6 h7 h8 h9
  · simp at hx; rcases hx with h | h <;> omega
  · simp at hx; rcases hx with h | h <;> omega
  · simp at hx; rcases hx with h | h <;> omega
  · simp at hx; rcases hx with h | h <;> omega
  · simp at hx; rcases hx with h | h <;> omega
  · simp at hx; rcases hx with h | h <;> omega
  · simp at hx; rcases hx with h | h <;> omega
  · simp at hx; omega
  · simp at hx
    rcases hx with h | h | h
    · omega
    · omega
    · exact hex4_ascii _ _ h
  · simp at hx
    rcases hx with h | h | h | h | h | h
    all_goals first | omega | exact hex4_ascii _ _ h

theorem escapeList_ascii (s : PyStr) (hs : pystrOk s = true) :
    ∀ x ∈ escapeList s, x < 0x80 := by
  induction s with
  | nil => simp [escapeList]
  | cons c t ih =>
    intro x hx
    simp [escapeList] at hx
    rcases hx with h | h
    · exact escapeChar_ascii c (pystrOk_head_lt hs) x h
    · exact ih (pystrOk_tail hs) x h

theorem natReprAux_ascii {fuel n : Nat} (h : n < fuel) :
    ∀ c ∈ natReprAux fuel n, c < 0x80 := by
  intro c hc
  have := natReprAux_digits h c hc
  simp [isDigitCh] at this
  omega

theorem intRepr_ascii (n : Int) : ∀ x ∈ intRepr n, x < 0x80 := by
  intro x hx
  unfold intRepr at hx
  split_ifs at hx with h
  · simp at hx
    rcases hx with h | h
    · omega
    · exact natReprAux_ascii (by omega) x h
  · exact natReprAux_ascii (by omega) x hx


mutual

theorem dumps_ascii (j : Json) (hwf : jsonWF j = true) :
    ∀ x ∈ Json.dumps j, x < 0x80 := by
  cases j with
  | null =>
    intro x hx
    simp [Json.dumps] at hx
    rcases hx with h | h | h | h <;> omega
  | bool b =>
    cases b with
    | true =>
      intro x hx
      simp [Json.dumps] at hx
      rcases hx with h | h | h | h <;> omega
    | false =>
      intro x hx
      simp [Json.dumps] at hx
      rcases hx with h | h | h | h | h <;> omega
  | int n => exact intRepr_ascii n
  | str s =>
    intro x hx
    simp [Json.dumps, strDumps] at hx
    rcases hx with h | h | h
    all_goals first
      | omega
      | exact escapeList_ascii s (by simpa [jsonWF] using hwf) x h
  | arr xs =>
    intro x hx
    simp [Json.dumps] at hx
    rcases hx with h | h | h
    all_goals first
      | omega
      | exact elems_ascii xs (by simpa [jsonWF] using hwf) x h
  | obj ms =>
    intro x hx
    simp [Json.dumps] at hx
    rcases hx with h | h | h
    all_goals first
      | omega
      | exact members_ascii ms (by simpa [jsonWF] using hwf) x h

theorem elems_ascii (xs : JsonList) (hwf : jsonListWF xs = true) :
    ∀ x ∈ JsonList.dumpsElems xs, x < 0x80 := by
  cases xs with
  | nil => simp [JsonList.dumpsElems]
  | cons h t =>
    have hwfp : jsonWF h = true ∧ jsonListWF t = true := by
      simpa [jsonListWF] using hwf
    cases t with
    | nil =>
      intro x hx
      rw [show JsonList.dumpsElems (.cons h .nil) = Json.dumps h from rfl] at hx
      exact dumps_ascii h hwfp.1 x hx
    | cons h2 t2 =>
      intro x hx
      simp [JsonList.dumpsElems] at hx
      rcases hx with h1 | h1 | h1 | h1
      all_goals first
        | omega
        | exact dumps_ascii h hwfp.1 x h1
        | exact elems_ascii (.cons h2 t2) hwfp.2 x h1

theorem members_ascii (ms : JsonObj) (hwf : jsonObjWF ms = true) :
    ∀ x ∈ JsonObj.dumpsMembers ms, x < 0x80 := by
  cases ms with
  | nil => simp [JsonObj.dumpsMembers]
  | cons k v t =>
    have hwfp : pystrOk k = true ∧ jsonWF v = true ∧ jsonObjWF t = true := by
      simpa [jsonObjWF, Bool.and_assoc] using hwf
    have hkey : ∀ x ∈ escapeList k, x < 0x80 := escapeList_ascii k hwfp.1
    cases t with
    | nil =>
      intro x hx
      simp [JsonObj.dumpsMembers, strDumps] at hx
      rcases hx with h1 | h1 | h1 | h1 | h1 | h1
      all_goals first
        | omega
        | exact hkey x h1
        | exact dumps_ascii v hwfp.2.1 x h1
    | cons k2 v2 t2 =>
      intro x hx
      simp [JsonObj.dumpsMembers, strDumps] at hx
      rcases hx with h1 | h1 | h1 | h1 | h1 | h1 | h1 | h1 | h1
      all_goals first
        | omega
        | exact hkey x h1
        | exact dumps_ascii v hwfp.2.1 x h1
        | exact members_ascii (.cons k2 v2 t2) hwfp.2.2 x h1

end

theorem utf8Encode_ascii (l : List Nat) (h : ∀ x ∈ l, x < 0x80) :
    utf8Encode l = some l := by
  induction l with
  | nil => rfl
  | cons c t ih =>
    have hc : c < 0x80 := h c (by simp)
    have ht := ih (fun x hx => h x (by simp [hx]))
    have hch : utf8EncodeChar c = some [c] := by simp [utf8EncodeChar, hc]
    rw [show utf8Encode (c :: t) =
        (match utf8EncodeChar c, utf8Encode t with
         | some e, some r => some (e ++ r)
         | _, _ => none) from rfl]
    rw [hch, ht]
    rfl

theorem utf8DecodeAux_ascii (l : List Nat) : ∀ fuel, (∀ x ∈ l, x < 0x80) →
    l.length < fuel → utf8DecodeAux fuel l = some l := by
  induction l with
  | nil =>
    intro fuel _ _
    match fuel with
    | 0 => rfl
    | f + 1 => rfl
  | cons c t ih =>
    intro fuel h hf
    match fuel, hf with
    | f + 1, hf =>
      have hc : c < 0x80 := h c (by simp)
      have hstep : utf8DecodeStep (c :: t) = some (c, t) := by
        simp [utf8DecodeStep, hc]
      rw [show utf8DecodeAux (f + 1) (c :: t) =
          (match utf8DecodeStep (c :: t) with
           | none => none
           | some (cp, rest) => (utf8DecodeAux f rest).map (fun r => cp :: r)) from rfl]
      rw [hstep]
      simp only []
      rw [ih f (fun x hx => h x (by simp [hx])) (by simpa using Nat.lt_of_succ_lt_succ hf)]
      rfl

theorem utf8Decode_ascii (l : List Nat) (h : ∀ x ∈ l, x < 0x80) :
    utf8Decode l = some l :=
  utf8DecodeAux_ascii l (l.length + 1) h (by omega)

theorem metaBytes_eq (m : DataMetadata)
    (hwf : jsonWF (DataMetadata.to_dict m) = true) :
    metaBytes m = some (Json.dumps m.to_dict) :=
  utf8Encode_ascii _ (dumps_ascii _ hwf)

theorem dtype_value_ok (dt : DataType) : pystrOk dt.value = true := by
  cases dt <;> decide

theorem optIntJson_wf (o : Option Int) : jsonWF (optIntJson o) = true := by
  cases o <;> rfl

theorem to_dict_wf (m : DataMetadata) (hm : metadataWF m = true) :
    jsonWF m.to_dict = true := by
  simp [metadataWF] at hm
  obtain ⟨⟨⟨⟨⟨h1, h2⟩, h3⟩, h4⟩, h5⟩, h6⟩ := hm
  simp +decide [DataMetadata.to_dict, jsonWF, jsonObjWF, h1, h2, h3, h4, h5, h6,
    dtype_value_ok, optIntJson_wf]

theorem fromBytesBE_two (a b : Nat) : fromBytesBE [a, b] = a * 256 + b := by
  simp [fromBytesBE, List.foldl]

theorem payload_parse_eq (m : DataMetadata) (d now : PyStr)
    (hjwf : jsonWF m.to_dict = true) :
    _parse_payload now
        (protocolMarker ++ toBytes2BE (Json.dumps m.to_dict).length ++
          Json.dumps m.to_dict ++ d) =
      Except.ok (m, d) := by
  set mb := Json.dumps m.to_dict with hmb
  set payload := protocolMarker ++ toBytes2BE mb.length ++ mb ++ d with hpayload
  have hstart : pyStartswith protocolMarker payload = true := by
    rw [hpayload, List.append_assoc, List.append_assoc]
    exact pyStartswith_append _ _
  have hdrop6 : payload.drop 6 = toBytes2BE mb.length ++ (mb ++ d) := by
    rw [hpayload, List.append_assoc, List.append_assoc]
    exact List.drop_left' rfl
  have hL : fromBytesBE ((payload.drop 6).take 2) = mb.length := by
    rw [hdrop6]
    rw [show toBytes2BE mb.length ++ (mb ++ d) =
        [mb.length / 256, mb.length % 256] ++ (mb ++ d) from rfl]
    have htake : List.take 2 ([mb.length / 256, mb.length % 256] ++ (mb ++ d)) =
        [mb.length / 256, mb.length % 256] := List.take_left' rfl
    rw [htake, fromBytesBE_two]
    omega
  have hdrop8 : payload.drop 8 = mb ++ d := by
    rw [hpayload]
    rw [show protocolMarker ++ toBytes2BE mb.length ++ mb ++ d =
        (protocolMarker ++ toBytes2BE mb.length) ++ (mb ++ d) by
      simp [List.append_assoc]]
    exact List.drop_left' rfl
  have hmbytes : (payload.drop 8).take mb.length = mb := by
    rw [hdrop8]
    exact List.take_left' rfl
  have hdata : payload.drop (8 + mb.length) = d := by
    rw [hpayload]
    rw [show protocolMarker ++ toBytes2BE mb.length ++ mb ++ d =
        (protocolMarker ++ toBytes2BE mb.length ++ mb) ++ d by
      simp [List.append_assoc]]
    refine List.drop_left' ?_
    simp [toBytes2BE, protocolMarker]
    omega
  have hdec : utf8Decode mb = some mb := utf8Decode_ascii mb (dumps_ascii _ hjwf)
  have hloads : loads mb = some m.to_dict := loads_dumps _ hjwf
  unfold _parse_payload
  rw [if_pos hstart]
  simp only [hL, hmbytes, hdata, hdec, hloads, from_dict_to_dict]

/-- C1 (amended): for every metadata record whose strings are in Unicode
range and contain no high-surrogate-immediately-followed-by-low-surrogate
pair, and whose compact-JSON serialization is at most 65535 UTF-8 bytes,
and for every byte string `d` (including `d = b""`), decoding the framed
payload produced by encoding returns an equal metadata record and the data
bytes unchanged: `_parse_payload(_create_storage_payload(d, m)) == (m, d)`. -/
theorem c1_roundtrip (m : DataMetadata) (d now : PyStr)
    (hwf : metadataWF m = true)
    (hlen : (Json.dumps m.to_dict).length ≤ 65535) :
    (_create_storage_payload d m).map (_parse_payload now) =
      some (Except.ok (m, d)) := by
  have hjwf := to_dict_wf m hwf
  have hmb := metaBytes_eq m hjwf
  unfold _create_storage_payload
  rw [hmb]
  simp only []
  rw [if_pos (by omega)]
  simp only [Option.map_some']
  exact congrArg some (payload_parse_eq m d now hjwf)

/-- C1 witness: the round trip evaluated on a concrete record and data. -/
theorem c1_roundtrip_witness :
    metadataWF mDemo = true ∧ (Json.dumps mDemo.to_dict).length ≤ 65535 ∧
    (_create_storage_payload (ps "Seth is cool") mDemo).map (_parse_payload []) =
      some (Except.ok (mDemo, ps "Seth is cool")) :=
  ⟨by decide, by decide,
    c1_roundtrip mDemo (ps "Seth is cool") [] (by decide) (by decide)⟩

/-- C1 counterexample: for `msur` (metadata whose name holds an adjacent
surrogate pair, serialization well below 65535 bytes) the decoded record is
not equal to the original — CPython's `json.loads` merges the pair, so the
claim as stated fails. -/
theorem c1_counterexample :
    (Json.dumps (DataMetadata.to_dict msur)).length ≤ 65535 ∧
    (_create_storage_payload [] msur).map (_parse_payload []) ≠
      some (Except.ok (msur, [])) := by
  constructor
  · decide
  · have heval : (_create_storage_payload [] msur).map (_parse_payload []) =
        some (Except.ok (msurMerged, [])) := by rfl
    rw [heval]
    intro h
    have h2 : msurMerged = msur := by
      injection h with h1
      injection h1 with h2
      exact congrArg Prod.fst h2
    have h3 : msurMerged.name = msur.name := congrArg DataMetadata.name h2
    revert h3
    decide

/-!  Chunking lemmas (for the claims about `_chunk_data` and `_store_chunked`). -/

theorem chunkDataAux_nil_of_le (maxSize : Nat) (data : List Nat) (fuel i : Nat)
    (h : data.length ≤ i) : chunkDataAux maxSize data fuel i = [] := by
  cases fuel with
  | zero => rfl
  | succ f => simp [chunkDataAux, Nat.not_lt.mpr h]

theorem chunkDataAux_cons (maxSize : Nat) (data : List Nat) (f i : Nat)
    (h : i < data.length) :
    chunkDataAux maxSize data (f + 1) i =
      ((data.drop i).take maxSize) :: chunkDataAux maxSize data f (i + maxSize) := by
  simp [chunkDataAux, h]

theorem chunkDataAux_flatten (maxSize : Nat) (data : List Nat) (hms : 1 ≤ maxSize) :
    ∀ fuel i, data.length - i ≤ fuel →
      (chunkDataAux maxSize data fuel i).flatten = data.drop i := by
  intro fuel
  induction fuel with
  | zero =>
    intro i hi
    rw [chunkDataAux_nil_of_le maxSize data 0 i (by omega)]
    rw [List.drop_eq_nil_of_le (by omega)]
    rfl
  | succ f ih =>
    intro i hi
    by_cases h : i < data.length
    · rw [chunkDataAux_cons maxSize data f i h]
      rw [List.flatten_cons]
      rw [ih (i + maxSize) (by omega)]
      have hdd : data.drop (i + maxSize) = (data.drop i).drop maxSize := by
        rw [List.drop_drop]
      rw [hdd]
      exact List.take_append_drop _ _
    · rw [chunkDataAux_nil_of_le maxSize data (f + 1) i (by omega)]
      rw [List.drop_eq_nil_of_le (by omega)]
      rfl

theorem chunkDataAux_length (maxSize : Nat) (data : List Nat) (hms : 1 ≤ maxSize) :
    ∀ fuel i, data.length - i ≤ fuel →
      (chunkDataAux maxSize data fuel i).length =
        (data.length - i + maxSize - 1) / maxSize := by
  intro fuel
  induction fuel with
  | zero =>
    intro i hi
    rw [chunkDataAux_nil_of_le maxSize data 0 i (by omega)]
    have h0 : data.length - i = 0 := by omega
    rw [h0, List.length_nil]
    rw [Nat.div_eq_of_lt (by omega)]
  | succ f ih =>
    intro i hi
    by_cases h : i < data.length
    · rw [chunkDataAux_cons maxSize data f i h]
      rw [List.length_cons, ih (i + maxSize) (by omega)]
      set r := data.length - i with hr
      have hr1 : 1 ≤ r := by omega
      have hsub : data.length - (i + maxSize) = r - maxSize := by omega
      rw [hsub]
      by_cases hcase : maxSize ≤ r
      · have e1 : r - maxSize + maxSize - 1 = r - 1 := by omega
        have e2 : r + maxSize - 1 = (r - 1) + maxSize := by omega
        rw [e1, e2, Nat.add_div_right _ (by omega)]
      · have e1 : r - maxSize + maxSize - 1 = maxSize - 1 := by omega
        have e2 : r + maxSize - 1 = (r - 1) + maxSize := by omega
        rw [e1, e2, Nat.add_div_right _ (by omega)]
        rw [Nat.div_eq_of_lt (by omega), Nat.div_eq_of_lt (by omega)]
    · rw [chunkDataAux_nil_of_le maxSize data (f + 1) i (by omega)]
      have h0 : data.length - i = 0 := by omega
      rw [h0, List.length_nil]
      rw [Nat.div_eq_of_lt (by omega)]

theorem chunkDataAux_mem_le (maxSize : Nat) (data : List Nat) :
    ∀ fuel i c, c ∈ chunkDataAux maxSize data fuel i → c.length ≤ maxSize := by
  intro fuel
  induction fuel with
  | zero =>
    intro i c hc
    simp [chunkDataAux] at hc
  | succ f ih =>
    intro i c hc
    by_cases h : i < data.length
    · rw [chunkDataAux_cons maxSize data f i h] at hc
      rcases List.mem_cons.mp hc with hc | hc
      · rw [hc, List.length_take]
        omega
      · exact ih _ c hc
    · rw [chunkDataAux_nil_of_le maxSize data (f + 1) i (by omega)] at hc
      simp at hc

theorem chunkDataAux_ne_nil (maxSize : Nat) (data : List Nat) (fuel i : Nat)
    (h : chunkDataAux maxSize data fuel i ≠ []) : i < data.length := by
  by_contra hi
  exact h (chunkDataAux_nil_of_le maxSize data fuel i (by omega))

theorem chunkDataAux_getD (maxSize : Nat) (data : List Nat) :
    ∀ fuel i k, k + 1 < (chunkDataAux maxSize data fuel i).length →
      ((chunkDataAux maxSize data fuel i).getD k []).length = maxSize := by
  intro fuel
  induction fuel with
  | zero =>
    intro i k hk
    simp [chunkDataAux] at hk
  | succ f ih =>
    intro i k hk
    by_cases h : i < data.length
    · rw [chunkDataAux_cons maxSize data f i h] at hk ⊢
      cases k with
      | zero =>
        simp only [List.length_cons] at hk
        have hne : chunkDataAux maxSize data f (i + maxSize) ≠ [] := by
          intro hnil
          rw [hnil] at hk
          simp at hk
        have hlt := chunkDataAux_ne_nil maxSize data f (i + maxSize) hne
        rw [List.getD_cons_zero, List.length_take, List.length_drop]
        omega
      | succ k =>
        simp only [List.length_cons] at hk
        rw [List.getD_cons_succ]
        exact ih (i + maxSize) k (by omega)
    · rw [chunkDataAux_nil_of_le maxSize data (f + 1) i (by omega)] at hk
      simp at hk

/-- C10: for every byte string `d` and every `max_size ≥ 1`, concatenating
(in order) the slices `_chunk_data` produced recovers `d` exactly, including
for empty `d`: `reassemble(split(d, max_size)) == d`. -/
theorem c10_split_reassemble (maxSize : Nat) (d : List Nat) (hms : 1 ≤ maxSize) :
    (_chunk_data maxSize d).flatten = d := by
  unfold _chunk_data
  rw [chunkDataAux_flatten maxSize d hms d.length 0 (by omega)]
  exact List.drop_zero d

/-- C10 witness: the round trip evaluated at `max_size = 2` on five bytes. -/
theorem c10_split_reassemble_witness :
    1 ≤ 2 ∧ (_chunk_data 2 [1, 2, 3, 4, 5]).flatten = [1, 2, 3, 4, 5] :=
  ⟨by decide, c10_split_reassemble 2 [1, 2, 3, 4, 5] (by decide)⟩

/-- C4 (amended): for `max_size ≥ 1`, splitting produces exactly
`ceil(len(d)/max_size)` contiguous left-to-right slices — zero slices for
empty input, not one — each of length at most `max_size`, and every slice
other than the last of length exactly `max_size`. -/
theorem c4_chunk_shape (maxSize : Nat) (d : List Nat) (hms : 1 ≤ maxSize) :
    (_chunk_data maxSize d).length = (d.length + maxSize - 1) / maxSize ∧
    (∀ c ∈ _chunk_data maxSize d, c.length ≤ maxSize) ∧
    (∀ k, k + 1 < (_chunk_data maxSize d).length →
      ((_chunk_data maxSize d).getD k []).length = maxSize) := by
  refine ⟨?_, ?_, ?_⟩
  · unfold _chunk_data
    rw [chunkDataAux_length maxSize d hms d.length 0 (by omega)]
    rw [Nat.sub_zero]
  · intro c hc
    exact chunkDataAux_mem_le maxSize d d.length 0 c hc
  · intro k hk
    exact chunkDataAux_getD maxSize d d.length 0 k hk

/-- C4 witness: the slice count, size bound, and all-but-last-full property
evaluated at `max_size = 2` on five bytes (three slices: 2, 2, 1). -/
theorem c4_chunk_shape_witness :
    1 ≤ 2 ∧
    ((_chunk_data 2 [1, 2, 3, 4, 5]).length = ([1, 2, 3, 4, 5].length + 2 - 1) / 2 ∧
     (∀ c ∈ _chunk_data 2 [1, 2, 3, 4, 5], c.length ≤ 2) ∧
     (∀ k, k + 1 < (_chunk_data 2 [1, 2, 3, 4, 5]).length →
       ((_chunk_data 2 [1, 2, 3, 4, 5]).getD k []).length = 2)) :=
  ⟨by decide, c4_chunk_shape 2 [1, 2, 3, 4, 5] (by decide)⟩

/-- C4 counterexample: empty input produces zero slices, not the claimed one
empty slice (`range(0, 0, max_size)` is empty, so the loop never runs). -/
theorem c4_counterexample :
    _chunk_data MAX_CHUNK_SIZE [] = [] ∧ (_chunk_data MAX_CHUNK_SIZE []).length ≠ 1 := by
  decide

theorem prepare_applied (compressFn : List Nat → List Nat) (d : List Nat)
    (hbig : 1000 < d.length) (hsav : 10 * (compressFn d).length < 9 * d.length) :
    _prepare_data compressFn d true = (compressFn d, true) := by
  simp [_prepare_data, hbig, hsav]

/-- C3 (code bug): whenever chunked storage runs on data to which compression
was applied, every chunk's metadata carries `data_hash = sha256(d)` computed
from the original input `d`, while the chunks concatenate (in index order) to
the compressed bytes `compressFn d`, which differ from `d` — so the
concatenation is not the preimage of the shared `data_hash` and cannot hash
to it (`store` hashes `original_data` but hands `prepared_data` to
`_store_chunked`). -/
theorem c3_hash_mismatch (compressFn : List Nat → List Nat) (d : List Nat)
    (dt : DataType) (name desc : PyStr) (custom : JsonObj) (now : PyStr)
    (hbig : 1000 < d.length) (hsav : 10 * (compressFn d).length < 9 * d.length) :
    (∀ p ∈ storeChunked compressFn d dt name desc custom now,
       p.1.data_hash = sha256Hex d) ∧
    ((storeChunked compressFn d dt name desc custom now).map Prod.snd).flatten =
      compressFn d ∧
    compressFn d ≠ d := by
  have hprep := prepare_applied compressFn d hbig hsav
  have hsc : storeChunked compressFn d dt name desc custom now =
      _store_chunked_set (storeBase compressFn d dt name desc custom now)
        (sha256Hex d) now (compressFn d) := by
    unfold storeChunked
    rw [hprep]
  refine ⟨?_, ?_, ?_⟩
  · intro p hp
    rw [hsc] at hp
    unfold _store_chunked_set at hp
    simp only [List.mem_map] at hp
    obtain ⟨q, hq, hpq⟩ := hp
    rw [← hpq]
    rfl
  · rw [hsc]
    unfold _store_chunked_set
    simp only [List.map_map]
    have hmap : ((_chunk_data MAX_CHUNK_SIZE (compressFn d)).enum.map
        (Prod.snd ∘ fun p =>
          (chunkMetadata (storeBase compressFn d dt name desc custom now)
            (sha256Hex d) now
            (_chunk_data MAX_CHUNK_SIZE (compressFn d)).length p.1 p.2, p.2))) =
        (_chunk_data MAX_CHUNK_SIZE (compressFn d)).enum.map Prod.snd := rfl
    rw [hmap, List.enum_map_snd]
    unfold _chunk_data
    rw [chunkDataAux_flatten MAX_CHUNK_SIZE (compressFn d) (by decide)
      (compressFn d).length 0 (by omega)]
    exact List.drop_zero _
  · intro he
    have hlen : (compressFn d).length = d.length := congrArg List.length he
    omega

/-- C3 witness: a concrete compressible input (1001 bytes, stand-in
compressor output a single byte) on which every chunk's metadata hash is the
hash of the original while the chunks reassemble to the compressed byte. -/
theorem c3_hash_mismatch_witness :
    1000 < (List.replicate 1001 (0x78 : Nat)).length ∧
    10 * ([0] : List Nat).length < 9 * (List.replicate 1001 (0x78 : Nat)).length ∧
    ((∀ p ∈ storeChunked (fun _ => [0]) (List.replicate 1001 0x78) .raw
        (ps "n") [] .nil (ps "t"),
        p.1.data_hash = sha256Hex (List.replicate 1001 0x78)) ∧
     ((storeChunked (fun _ => [0]) (List.replicate 1001 0x78) .raw
        (ps "n") [] .nil (ps "t")).map Prod.snd).flatten = [0] ∧
     [0] ≠ List.replicate 1001 (0x78 : Nat)) :=
  ⟨by simp, by simp,
    c3_hash_mismatch (fun _ => [0]) (List.replicate 1001 0x78) .raw
      (ps "n") [] .nil (ps "t") (by simp) (by simp)⟩

/-!  Script-extractor lemmas (`retrieval.py` lines 119-140). -/

theorem extract_guard (a : Nat) (l : List Nat) :
    2 < (0x00 :: 0x6A :: a :: l).length ∧
      (0x00 :: 0x6A :: a :: l).getD 0 0 = 0x00 ∧
      (0x00 :: 0x6A :: a :: l).getD 1 0 = 0x6A := by
  refine ⟨?_, rfl, rfl⟩
  simp only [List.length_cons]
  omega

theorem extract_direct (op : Nat) (data rest : List Nat) (hop : op < 0x4C)
    (hlen : data.length = op) :
    extractFromScript (0x00 :: 0x6A :: op :: (data ++ rest)) = .found data := by
  unfold extractFromScript
  rw [if_pos (extract_guard op (data ++ rest))]
  simp only [show ((0x00 : Nat) :: 0x6A :: op :: (data ++ rest)).getD 2 0 = op from rfl]
  rw [if_pos hop]
  simp only [show ((0x00 : Nat) :: 0x6A :: op :: (data ++ rest)).drop 3 = data ++ rest
    from rfl]
  rw [List.take_left' hlen]

theorem extract_pd1 (len : Nat) (data rest : List Nat) (hlen : data.length = len) :
    extractFromScript (0x00 :: 0x6A :: 0x4C :: len :: (data ++ rest)) = .found data := by
  unfold extractFromScript
  rw [if_pos (extract_guard 0x4C (len :: (data ++ rest)))]
  simp only [show ((0x00 : Nat) :: 0x6A :: 0x4C :: len :: (data ++ rest)).getD 2 0 = 0x4C
    from rfl]
  rw [if_neg (by omega), if_pos trivial]
  rw [if_pos (show 3 < ((0x00 : Nat) :: 0x6A :: 0x4C :: len :: (data ++ rest)).length by
    simp only [List.length_cons]; omega)]
  simp only [show ((0x00 : Nat) :: 0x6A :: 0x4C :: len :: (data ++ rest)).getD 3 0 = len
    from rfl]
  simp only [show ((0x00 : Nat) :: 0x6A :: 0x4C :: len :: (data ++ rest)).drop 4 =
    data ++ rest from rfl]
  rw [List.take_left' hlen]

theorem fromBytesLE_two (b0 b1 : Nat) : fromBytesLE [b0, b1] = b0 + 256 * b1 := by
  simp [fromBytesLE]

theorem fromBytesLE_four (b0 b1 b2 b3 : Nat) :
    fromBytesLE [b0, b1, b2, b3] = b0 + 256 * b1 + 65536 * b2 + 16777216 * b3 := by
  simp [fromBytesLE]
  ring

theorem extract_pd2 (b0 b1 : Nat) (data rest : List Nat)
    (hlen : data.length = b0 + 256 * b1) :
    extractFromScript (0x00 :: 0x6A :: 0x4D :: b0 :: b1 :: (data ++ rest)) =
      .found data := by
  unfold extractFromScript
  rw [if_pos (extract_guard 0x4D (b0 :: b1 :: (data ++ rest)))]
  simp only [show ((0x00 : Nat) :: 0x6A :: 0x4D :: b0 :: b1 :: (data ++ rest)).getD 2 0 =
    0x4D from rfl]
  rw [if_neg (by omega), if_neg (by omega), if_pos trivial]
  simp only [show (((0x00 : Nat) :: 0x6A :: 0x4D :: b0 :: b1 :: (data ++ rest)).drop 3).take 2 =
    [b0, b1] from rfl]
  simp only [show ((0x00 : Nat) :: 0x6A :: 0x4D :: b0 :: b1 :: (data ++ rest)).drop 5 =
    data ++ rest from rfl]
  rw [fromBytesLE_two]
  rw [List.take_left' hlen]

theorem extract_pd4 (b0 b1 b2 b3 : Nat) (data rest : List Nat)
    (hlen : data.length = b0 + 256 * b1 + 65536 * b2 + 16777216 * b3) :
    extractFromScript (0x00 :: 0x6A :: 0x4E :: b0 :: b1 :: b2 :: b3 :: (data ++ rest)) =
      .found data := by
  unfold extractFromScript
  rw [if_pos (extract_guard 0x4E (b0 :: b1 :: b2 :: b3 :: (data ++ rest)))]
  simp only
    [show ((0x00 : Nat) :: 0x6A :: 0x4E :: b0 :: b1 :: b2 :: b3 :: (data ++ rest)).getD 2 0 =
      0x4E from rfl]
  rw [if_neg (by omega), if_neg (by omega), if_neg (by omega), if_pos trivial]
  simp only [show
    (((0x00 : Nat) :: 0x6A :: 0x4E :: b0 :: b1 :: b2 :: b3 :: (data ++ rest)).drop 3).take 4 =
      [b0, b1, b2, b3] from rfl]
  simp only [show
    ((0x00 : Nat) :: 0x6A :: 0x4E :: b0 :: b1 :: b2 :: b3 :: (data ++ rest)).drop 7 =
      data ++ rest from rfl]
  rw [fromBytesLE_four]
  rw [List.take_left' hlen]

theorem extract_skip (op : Nat) (rest : List Nat) (hop : 0x4E < op) :
    extractFromScript (0x00 :: 0x6A :: op :: rest) = .skip := by
  unfold extractFromScript
  rw [if_pos (extract_guard op rest)]
  simp only [show ((0x00 : Nat) :: 0x6A :: op :: rest).getD 2 0 = op from rfl]
  rw [if_neg (by omega), if_neg (by omega), if_neg (by omega), if_neg (by omega)]

/-- C5 (code bug): a declared push length that runs past the end of the
script bytes is not reported as a malformed-script error; Python's clamping
slice (`raw_bytes[idx : idx + length]`) silently returns the shorter
remainder as recovered data. -/
theorem c5_silent_truncation (op : Nat) (data : List Nat) (hop : op < 0x4C)
    (hshort : data.length < op) :
    extractFromScript (0x00 :: 0x6A :: op :: data) = .found data ∧
    ScriptExtract.found data ≠ .err := by
  constructor
  · unfold extractFromScript
    rw [if_pos (extract_guard op data)]
    simp only [show ((0x00 : Nat) :: 0x6A :: op :: data).getD 2 0 = op from rfl]
    rw [if_pos hop]
    simp only [show ((0x00 : Nat) :: 0x6A :: op :: data).drop 3 = data from rfl]
    rw [List.take_of_length_le (by omega)]
  · intro h
    exact ScriptExtract.noConfusion h

/-- C5 witness: script `00 6a 05 01 02` declares a 5-byte push with only two
bytes present, and extraction returns those two bytes instead of an error. -/
theorem c5_silent_truncation_witness :
    5 < 0x4C ∧ ([1, 2] : List Nat).length < 5 ∧
    (extractFromScript [0x00, 0x6A, 5, 1, 2] = .found [1, 2] ∧
     ScriptExtract.found [1, 2] ≠ .err) :=
  ⟨by decide, by decide, c5_silent_truncation 5 [1, 2] (by decide) (by decide)⟩

/-- C2: for scripts beginning `0x00 0x6a` the push is decoded exactly as
specified — an opcode `< 0x4c` is a direct length with data at offset 3;
`0x4c` takes the length from the next byte with data 2 bytes later; `0x4d`
from the next 2 bytes little-endian with data 3 bytes later; `0x4e` from the
next 4 bytes little-endian with data 5 bytes later; any other opcode value
skips the output without a payload; and the extractor recovers exactly the
pushed bytes at each threshold length (0, 75, 76, 255, 256, 65535, 65536)
and for `0x00 0x6a 0x4c 0x50` followed by any 80 bytes. -/
theorem c2_extractor :
    (∀ op data rest, op < 0x4C → data.length = op →
      extractFromScript (0x00 :: 0x6A :: op :: (data ++ rest)) = .found data) ∧
    (∀ len data rest, data.length = len →
      extractFromScript (0x00 :: 0x6A :: 0x4C :: len :: (data ++ rest)) = .found data) ∧
    (∀ b0 b1 data rest, data.length = b0 + 256 * b1 →
      extractFromScript (0x00 :: 0x6A :: 0x4D :: b0 :: b1 :: (data ++ rest)) =
        .found data) ∧
    (∀ b0 b1 b2 b3 data rest,
      data.length = b0 + 256 * b1 + 65536 * b2 + 16777216 * b3 →
      extractFromScript (0x00 :: 0x6A :: 0x4E :: b0 :: b1 :: b2 :: b3 :: (data ++ rest)) =
        .found data) ∧
    (∀ op rest, 0x4E < op →
      extractFromScript (0x00 :: 0x6A :: op :: rest) = .skip) ∧
    extractFromScript [0x00, 0x6A, 0x00] = .found [] ∧
    extractFromScript (0x00 :: 0x6A :: 75 :: List.replicate 75 0xAB) =
      .found (List.replicate 75 0xAB) ∧
    extractFromScript (0x00 :: 0x6A :: 0x4C :: 76 :: List.replicate 76 0xAB) =
      .found (List.replicate 76 0xAB) ∧
    extractFromScript (0x00 :: 0x6A :: 0x4C :: 255 :: List.replicate 255 0xAB) =
      .found (List.replicate 255 0xAB) ∧
    extractFromScript (0x00 :: 0x6A :: 0x4D :: 0 :: 1 :: List.replicate 256 0xAB) =
      .found (List.replicate 256 0xAB) ∧
    extractFromScript (0x00 :: 0x6A :: 0x4D :: 255 :: 255 :: List.replicate 65535 0xAB) =
      .found (List.replicate 65535 0xAB) ∧
    extractFromScript
        (0x00 :: 0x6A :: 0x4E :: 0 :: 0 :: 1 :: 0 :: List.replicate 65536 0xAB) =
      .found (List.replicate 65536 0xAB) ∧
    (∀ data : List Nat, data.length = 80 →
      extractFromScript (0x00 :: 0x6A :: 0x4C :: 0x50 :: data) = .found data) := by
  refine ⟨?_, ?_, ?_, ?_, ?_, ?_, ?_, ?_, ?_, ?_, ?_, ?_, ?_⟩
  · intro op data rest hop hlen
    exact extract_direct op data rest hop hlen
  · intro len data rest hlen
    exact extract_pd1 len data rest hlen
  · intro b0 b1 data rest hlen
    exact extract_pd2 b0 b1 data rest hlen
  · intro b0 b1 b2 b3 data rest hlen
    exact extract_pd4 b0 b1 b2 b3 data rest hlen
  · intro op rest hop
    exact extract_skip op rest hop
  · have h := extract_direct 0 [] [] (by omega) rfl
    simpa using h
  · have h := extract_direct 75 (List.replicate 75 0xAB) [] (by omega) (by rw [List.length_replicate])
    rw [List.append_nil] at h
    exact h
  · have h := extract_pd1 76 (List.replicate 76 0xAB) [] (by rw [List.length_replicate])
    rw [List.append_nil] at h
    exact h
  · have h := extract_pd1 255 (List.replicate 255 0xAB) [] (by rw [List.length_replicate])
    rw [List.append_nil] at h
    exact h
  · have h := extract_pd2 0 1 (List.replicate 256 0xAB) [] (by rw [List.length_replicate])
    rw [List.append_nil] at h
    exact h
  · have h := extract_pd2 255 255 (List.replicate 65535 0xAB) [] (by rw [List.length_replicate])
    rw [List.append_nil] at h
    exact h
  · have h := extract_pd4 0 0 1 0 (List.replicate 65536 0xAB) [] (by rw [List.length_replicate])
    rw [List.append_nil] at h
    exact h
  · intro data hlen
    have h := extract_pd1 0x50 data [] hlen
    rw [List.append_nil] at h
    exact h

/-- C2 witness: the direct-push and PUSHDATA1 conjuncts evaluated on
concrete scripts, including the 80-byte PUSHDATA1 example. -/
theorem c2_extractor_witness :
    (5 : Nat) < 0x4C ∧ ([9, 8, 7, 6, 5] : List Nat).length = 5 ∧
    extractFromScript (0x00 :: 0x6A :: 5 :: ([9, 8, 7, 6, 5] ++ [1, 1])) =
      .found [9, 8, 7, 6, 5] ∧
    (List.replicate 80 (0x42 : Nat)).length = 80 ∧
    extractFromScript (0x00 :: 0x6A :: 0x4C :: 0x50 :: List.replicate 80 0x42) =
      .found (List.replicate 80 0x42) :=
  ⟨by decide, by decide,
    c2_extractor.1 5 [9, 8, 7, 6, 5] [1, 1] (by decide) (by decide),
    by rw [List.length_replicate],
    c2_extractor.2.2.2.2.2.2.2.2.2.2.2.2 (List.replicate 80 0x42)
      (by rw [List.length_replicate])⟩

/-- C9: with compression requested, the prepare step hands the data to the
compressor (`zlib.compress(·, level=9)`, the `compressFn` parameter) and
reports `applied = true` exactly when `len(d) > 1000` and the compressed
size is below the 0.9 threshold; in every other case the input comes back
unchanged with `applied = false` — in particular whenever `len(d) ≤ 1000`. -/
theorem c9_compression_policy (compressFn : List Nat → List Nat) (d : List Nat) :
    ((_prepare_data compressFn d true).2 = true ↔
      1000 < d.length ∧ 10 * (compressFn d).length < 9 * d.length) ∧
    ((_prepare_data compressFn d true).2 = true →
      (_prepare_data compressFn d true).1 = compressFn d) ∧
    ((_prepare_data compressFn d true).2 = false →
      (_prepare_data compressFn d true).1 = d) ∧
    (d.length ≤ 1000 → _prepare_data compressFn d true = (d, false)) := by
  by_cases h1 : 1000 < d.length
  · by_cases h2 : 10 * (compressFn d).length < 9 * d.length
    · refine ⟨?_, ?_, ?_, ?_⟩ <;> simp [_prepare_data, h1, h2]
    · refine ⟨?_, ?_, ?_, ?_⟩ <;> simp [_prepare_data, h1, h2]
  · refine ⟨?_, ?_, ?_, ?_⟩ <;> simp [_prepare_data, h1]

/-- C9 witness: a 1001-byte input with a one-byte stand-in compressor output
gets `applied = true`; a 500-byte input comes back unchanged. -/
theorem c9_compression_policy_witness :
    (_prepare_data (fun _ => ([0] : List Nat)) (List.replicate 1001 0) true).2 = true ∧
    _prepare_data (fun _ => ([0] : List Nat)) (List.replicate 500 0) true =
      (List.replicate 500 0, false) :=
  ⟨(c9_compression_policy (fun _ => [0]) (List.replicate 1001 0)).1.mpr
      ⟨by rw [List.length_replicate]; omega,
       by show 10 * ([0] : List Nat).length < 9 * (List.replicate 1001 (0 : Nat)).length
          rw [List.length_replicate]
          decide⟩,
   (c9_compression_policy (fun _ => [0]) (List.replicate 500 0)).2.2.2
      (by rw [List.length_replicate]; omega)⟩

theorem noMerge_of_not_hi {c : Nat} (t : PyStr) (h : ¬(0xD800 ≤ c ∧ c ≤ 0xDBFF)) :
    noMerge c t = true := by
  cases t with
  | nil => rfl
  | cons c2 t2 =>
    simp [noMerge]
    omega

theorem pystrOk_replicate_a (n : Nat) : pystrOk (List.replicate n 0x61) = true := by
  induction n with
  | zero => rfl
  | succ k ih =>
    rw [List.replicate_succ, pystrOk_cons]
    exact ⟨by omega, noMerge_of_not_hi _ (by omega), ih⟩

theorem metadataWF_mBig : metadataWF mBig = true := by
  unfold metadataWF
  rw [show mBig.name = List.replicate 65600 0x61 from rfl, pystrOk_replicate_a]
  decide

theorem dumps_obj_cons_ge (k : PyStr) (v : Json) (t : JsonObj) :
    (Json.dumps v).length ≤ (Json.dumps (.obj (.cons k v t))).length := by
  cases t with
  | nil =>
    simp only [Json.dumps, JsonObj.dumpsMembers, strDumps, List.length_append,
      List.length_cons]
    omega
  | cons k2 v2 t2 =>
    simp only [Json.dumps, JsonObj.dumpsMembers, strDumps, List.length_append,
      List.length_cons]
    omega

theorem to_dict_length_ge_name (m : DataMetadata) :
    m.name.length ≤ (Json.dumps m.to_dict).length := by
  have h1 : m.name.length ≤ (Json.dumps (.str m.name)).length := by
    simp only [Json.dumps, strDumps, List.length_append, List.length_cons]
    have := escapeList_length_ge m.name
    omega
  have h2 : (Json.dumps (Json.str m.name)).length ≤ (Json.dumps m.to_dict).length := by
    rw [show m.to_dict = Json.obj (.cons key_name (.str m.name)
      (.cons key_data_type (.str m.data_type.value)
        (.cons key_description (.str m.description)
          (.cons key_version (.str m.version)
            (.cons key_created_at (.str m.created_at)
              (.cons key_size_bytes (.int m.size_bytes)
                (.cons key_compressed (.bool m.compressed)
                  (.cons key_chunk_index (optIntJson m.chunk_index)
                    (.cons key_total_chunks (optIntJson m.total_chunks)
                      (.cons key_data_hash (.str m.data_hash)
                        (.cons key_custom (.obj m.custom) .nil))))))))))) from rfl]
    exact dumps_obj_cons_ge _ _ _
  omega

theorem mBig_dumps_large : 65535 < (Json.dumps mBig.to_dict).length := by
  have h := to_dict_length_ge_name mBig
  rw [show mBig.name = List.replicate 65600 0x61 from rfl, List.length_replicate] at h
  omega

/-- C6: a metadata record whose serialized JSON exceeds 65535 bytes makes
payload creation fail outright (`len(metadata_bytes).to_bytes(2, "big")`
raises rather than truncating), so for no data byte string does encoding
produce a payload. -/
theorem c6_metadata_too_large (m : DataMetadata) (d mb : List Nat)
    (hmb : metaBytes m = some mb) (hlen : 65535 < mb.length) :
    _create_storage_payload d m = none := by
  unfold _create_storage_payload
  rw [hmb]
  simp only []
  rw [if_neg (by omega)]

/-- C6 witness: `mBig` (a 65600-character name) serializes past the 16-bit
field, and payload creation returns no payload. -/
theorem c6_metadata_too_large_witness :
    metaBytes mBig = some (Json.dumps mBig.to_dict) ∧
    65535 < (Json.dumps mBig.to_dict).length ∧
    _create_storage_payload (ps "data") mBig = none :=
  have hmb : metaBytes mBig = some (Json.dumps mBig.to_dict) :=
    metaBytes_eq mBig (to_dict_wf mBig metadataWF_mBig)
  ⟨hmb, mBig_dumps_large,
    c6_metadata_too_large mBig (ps "data") (Json.dumps mBig.to_dict) hmb mBig_dumps_large⟩

/-- C7: when the SHA-256 of the recovered (post-decompression) data differs
from the metadata's non-empty `data_hash`, retrieval returns `success=false`,
`verified=false`, and the explanatory error, while still carrying both the
recovered bytes and the parsed metadata; no exception escapes. -/
theorem get_ok_eq (now : PyStr) (txd : TxData)
    (decompressFn : List Nat → Except String (List Nat)) (verify : Bool) :
    get now (.ok txd) decompressFn verify =
      (match _extract_op_return_data txd with
       | .error e => { success := false, error := some e }
       | .ok pl =>
         match pl with
         | none =>
           { success := false, error := some "No OP_RETURN data found in transaction" }
         | some payload =>
           if payload = [] then
             { success := false, error := some "No OP_RETURN data found in transaction" }
           else
             match _parse_payload now payload with
             | .error e =>
               { success := false, error := some ("Failed to parse payload: " ++ e) }
             | .ok (md, data0) =>
               match (if md.compressed then decompressFn data0 else .ok data0) with
               | .error e =>
                 { success := false, error := some ("Decompression failed: " ++ e) }
               | .ok data =>
                 if verify ∧ optStrTruthy (some md.data_hash) then
                   if sha256Hex data = md.data_hash then
                     { success := true, data := some data, metadata := some md,
                       verified := true }
                   else
                     { success := false, data := some data, metadata := some md,
                       error := some "Data hash verification failed", verified := false }
                 else
                   { success := true, data := some data, metadata := some md,
                     verified := false }) := rfl

theorem c7_verify_failure_keeps_data (now : PyStr) (txd : TxData)
    (decompressFn : List Nat → Except String (List Nat))
    (payload data0 data : List Nat) (md : DataMetadata)
    (hext : _extract_op_return_data txd = .ok (some payload))
    (hne : payload ≠ [])
    (hparse : _parse_payload now payload = .ok (md, data0))
    (hdec : (if md.compressed then decompressFn data0 else .ok data0) = .ok data)
    (hhash : sha256Hex data ≠ md.data_hash)
    (hdh : md.data_hash ≠ []) :
    get now (.ok txd) decompressFn true =
      { success := false, data := some data, metadata := some md,
        error := some "Data hash verification failed", verified := false } := by
  have htr : optStrTruthy (some md.data_hash) = true := by
    unfold optStrTruthy
    simp [hdh]
  rw [get_ok_eq, hext]
  simp only []
  rw [if_neg hne, hparse]
  simp only []
  rw [hdec]
  simp only []
  rw [if_pos ⟨trivial, htr⟩, if_neg hhash]

/-- C7 witness: `txBad` carries metadata whose `data_hash` (`"00"`) cannot
match the hash of the recovered bytes `b"hi"`; retrieval reports the failure
but still returns the data and metadata. -/
theorem c7_verify_failure_keeps_data_witness :
    _extract_op_return_data txBad = .ok (some payloadBad) ∧
    payloadBad ≠ [] ∧
    _parse_payload [] payloadBad = .ok (mBad, ps "hi") ∧
    (if mBad.compressed then (fun _ => Except.error "zlib") (ps "hi")
     else .ok (ps "hi")) = .ok (ps "hi") ∧
    sha256Hex (ps "hi") ≠ mBad.data_hash ∧
    mBad.data_hash ≠ [] ∧
    get [] (.ok txBad) (fun _ => Except.error "zlib") true =
      { success := false, data := some (ps "hi"), metadata := some mBad,
        error := some "Data hash verification failed", verified := false } :=
  have hext : _extract_op_return_data txBad = .ok (some payloadBad) := by rfl
  have hne : payloadBad ≠ [] := by decide
  have hparse : _parse_payload [] payloadBad = .ok (mBad, ps "hi") := by rfl
  have hdec : (if mBad.compressed then (fun _ => Except.error "zlib") (ps "hi")
      else .ok (ps "hi")) = Except.ok (ps "hi") := by rfl
  have hhash : sha256Hex (ps "hi") ≠ mBad.data_hash := by decide
  have hdh : mBad.data_hash ≠ [] := by decide
  ⟨hext, hne, hparse, hdec, hhash, hdh,
    c7_verify_failure_keeps_data [] txBad (fun _ => Except.error "zlib")
      payloadBad (ps "hi") (ps "hi") mBad hext hne hparse hdec hhash hdh⟩

theorem get_chunked_go_cons (now : PyStr) (fetch : String → Except String TxData)
    (decompressFn : List Nat → Except String (List Nat)) (verify : Bool)
    (txid : String) (rest : List String) (i : Nat) (chunks : List (List Nat))
    (md : Option DataMetadata) (expected : Option PyStr) :
    get_chunked_go now fetch decompressFn verify (txid :: rest) i chunks md expected =
      (if (get now (fetch txid) decompressFn false).success then
        get_chunked_go now fetch decompressFn verify rest (i + 1)
          (chunks ++ [(get now (fetch txid) decompressFn false).data.getD []])
          (if md.isNone then (get now (fetch txid) decompressFn false).metadata else md)
          (if md.isNone then
            (get now (fetch txid) decompressFn false).metadata.map (fun m => m.data_hash)
           else expected)
      else
        { success := false,
          error := some ("Failed to retrieve chunk " ++ natStr (i + 1) ++ ": " ++
                         pyFmtOptStr (get now (fetch txid) decompressFn false).error) }) :=
  rfl

theorem get_chunked_go_fail (now : PyStr) (fetch : String → Except String TxData)
    (decompressFn : List Nat → Except String (List Nat)) (verify : Bool)
    (t : String) (post : List String)
    (hfail : (get now (fetch t) decompressFn false).success = false) :
    ∀ pre i chunks md expected,
      (∀ x ∈ pre, (get now (fetch x) decompressFn false).success = true) →
      get_chunked_go now fetch decompressFn verify (pre ++ t :: post) i chunks md expected =
        { success := false,
          error := some ("Failed to retrieve chunk " ++ natStr (pre.length + i + 1) ++
                         ": " ++ pyFmtOptStr (get now (fetch t) decompressFn false).error) } := by
  intro pre
  induction pre with
  | nil =>
    intro i chunks md expected _
    rw [List.nil_append, get_chunked_go_cons, if_neg (by simp [hfail])]
    rw [show List.length ([] : List String) + i + 1 = i + 1 by simp]
  | cons x pre2 ih =>
    intro i chunks md expected hpre
    rw [List.cons_append, get_chunked_go_cons, if_pos (hpre x (by simp))]
    rw [ih (i + 1) _ _ _ (fun y hy => hpre y (by simp [hy]))]
    rw [show pre2.length + (i + 1) + 1 = (x :: pre2).length + i + 1 by
      simp only [List.length_cons]
      omega]

theorem get_chunked_go_success (now : PyStr) (fetch : String → Except String TxData)
    (decompressFn : List Nat → Except String (List Nat)) (verify : Bool) :
    ∀ l i chunks md expected,
      (get_chunked_go now fetch decompressFn verify l i chunks md expected).success = true →
      ∀ x ∈ l, (get now (fetch x) decompressFn false).success = true := by
  intro l
  induction l with
  | nil =>
    intro i chunks md expected _ x hx
    simp at hx
  | cons y rest ih =>
    intro i chunks md expected h x hx
    rw [get_chunked_go_cons] at h
    by_cases hy : (get now (fetch y) decompressFn false).success = true
    · rw [if_pos hy] at h
      rcases List.mem_cons.mp hx with hx | hx
      · rw [hx]
        exact hy
      · exact ih _ _ _ _ h x hx
    · rw [if_neg hy] at h
      exact absurd h (by simp)

/-- C8: chunked retrieval stops at the first chunk whose retrieval fails,
returning a failed outcome that names that chunk's 1-based position and its
cause with no data or metadata attached; and an outcome with `success=true`
is only returned when every chunk in the list was retrieved successfully. -/
theorem c8_first_failure (now : PyStr) (fetch : String → Except String TxData)
    (decompressFn : List Nat → Except String (List Nat)) (verify : Bool) :
    (∀ pre t post,
      (∀ x ∈ pre, (get now (fetch x) decompressFn false).success = true) →
      (get now (fetch t) decompressFn false).success = false →
      get_chunked now fetch decompressFn (pre ++ t :: post) verify =
        { success := false,
          error := some ("Failed to retrieve chunk " ++ natStr (pre.length + 1) ++
                         ": " ++ pyFmtOptStr (get now (fetch t) decompressFn false).error) }) ∧
    (∀ txids, (get_chunked now fetch decompressFn txids verify).success = true →
      ∀ x ∈ txids, (get now (fetch x) decompressFn false).success = true) := by
  constructor
  · intro pre t post hpre hfail
    unfold get_chunked
    have h := get_chunked_go_fail now fetch decompressFn verify t post hfail
      pre 0 [] none none hpre
    simpa using h
  · intro txids h
    exact get_chunked_go_success now fetch decompressFn verify txids 0 [] none none h

/-- C8 witness: with `fetchDemo` the first chunk ("a") retrieves and the
second ("b") fails with "boom"; chunked retrieval reports exactly
`Failed to retrieve chunk 2: boom` with no data attached. -/
theorem c8_first_failure_witness :
    (∀ x ∈ ["a"], (get [] (fetchDemo x) (fun _ => Except.error "zlib") false).success
      = true) ∧
    (get [] (fetchDemo "b") (fun _ => Except.error "zlib") false).success = false ∧
    get_chunked [] fetchDemo (fun _ => Except.error "zlib") (["a"] ++ "b" :: []) true =
      { success := false, error := some "Failed to retrieve chunk 2: boom" } :=
  have hpre : ∀ x ∈ ["a"],
      (get [] (fetchDemo x) (fun _ => Except.error "zlib") false).success = true := by
    intro x hx
    rw [show x = "a" by simpa using hx]
    rfl
  have hfail : (get [] (fetchDemo "b") (fun _ => Except.error "zlib") false).success
      = false := rfl
  ⟨hpre, hfail,
    (c8_first_failure [] fetchDemo (fun _ => Except.error "zlib") true).1
      ["a"] "b" [] hpre hfail⟩
